import Mathlib

/-!
Board state machine and move generation of `pkg/types/board.go`

A shallow embedding of the board entity (`Get`, `put`, `swap`, `Move`, `Unmove`),
the static topology tables, the move generator `MoveList` and the terminal-state
detector `Winner`, followed by theorems about them.

Conventions of the embedding:
* a Go `int` coordinate is an `Int`; no arithmetic is done on coordinates by the code
  embedded here, so no wrap-around is involved;
* an index outside the `[9][7]Piece` array panics in Go; here the operation returns `none`;
* a method with a pointer receiver that mutates the board returns the new board next to its
  result;
* a Go map literal is an association list in the order of the literal, read with `List.lookup`
  (a Go map literal cannot repeat a key); indexing a map with a missing key yields the empty slice.
-/

namespace Dsq

/-- Modelled from the spec: the declaration of the type `Side` is not part of `board.go`.
The spec gives two sides and "no side"; `board.go` names them `A`, `B` and `None`. -/
inductive Side where
  | None
  | A
  | B
  deriving DecidableEq, Repr

/-- Modelled from the spec: the declaration of the type `Piece` is not part of `board.go`.
The spec describes a piece as either empty or a (species, side) pair over eight species; these
are the seventeen names `board.go` uses. -/
inductive Piece where
  | Empty
  | AMouse | ACat | ADog | AWolf | AHyena | ATiger | ALion | AElephant
  | BMouse | BCat | BDog | BWolf | BHyena | BTiger | BLion | BElephant
  deriving DecidableEq, Repr

/-- Modelled from the spec: the method `Piece.Side` is not part of `board.go`. A piece is tagged
with its side ("empty has no side"); the tag is the first letter of the name. -/
def Piece.Side : Piece → Side
  | .Empty => Side.None
  | .AMouse | .ACat | .ADog | .AWolf | .AHyena | .ATiger | .ALion | .AElephant => Side.A
  | .BMouse | .BCat | .BDog | .BWolf | .BHyena | .BTiger | .BLion | .BElephant => Side.B

/-- The Go type `Point [2]int`: `p.1` is `p[0]` (the file x), `p.2` is `p[1]` (the rank y). -/
abbrev Point := Int × Int

/-- A move `[2]Point`: `m.1` is `m[0]` (the origin), `m.2` is `m[1]` (the destination). -/
abbrev PointPair := Point × Point

/-- The piece methods that `MoveList` calls and whose source is not part of `board.go`:
`CanJump`, `CanSwim`, `CanTake` and `MaybeApplyTrap`. They are a parameter of the generator. -/
structure Rules where
  CanJump : Piece → Bool
  CanSwim : Piece → Bool
  CanTake : Piece → Piece → Bool
  MaybeApplyTrap : Piece → Point → Piece

/-- The Go type `Board [9][7]Piece`: nine rows (ranks) of seven pieces (files). -/
abbrev Board := Fin 9 → Fin 7 → Piece

def ADen : Point := (3, 0)
def ATrap1 : Point := (2, 0)
def ATrap2 : Point := (4, 0)
def ATrap3 : Point := (3, 1)
def BDen : Point := (3, 8)
def BTrap1 : Point := (3, 7)
def BTrap2 : Point := (2, 8)
def BTrap3 : Point := (4, 8)

/-- The points that index inside the `[9][7]` array: `0 ≤ p[0] < 7` and `0 ≤ p[1] < 9`. -/
def InRange (p : Point) : Prop := 0 ≤ p.1 ∧ p.1 < 7 ∧ 0 ≤ p.2 ∧ p.2 < 9

instance (p : Point) : Decidable (InRange p) := by unfold InRange; infer_instance

/-- `EmptyBoard`: `&Board{}`, the all-empty grid of the spec (`Empty` is the zero value of
`Piece`). -/
def EmptyBoard : Board := fun _ _ => Piece.Empty

/-- `b[y][x] = piece` for indices already known to be inside the array. -/
def Board.set (b : Board) (y : Fin 9) (x : Fin 7) (piece : Piece) : Board :=
  fun r c => if r = y ∧ c = x then piece else b r c

/-- `Board.Get`: `b[p[1]][p[0]]`. -/
def Board.Get (b : Board) (p : Point) : Option Piece :=
  if h : InRange p then
    some (b ⟨p.2.toNat, by unfold InRange at h; omega⟩ ⟨p.1.toNat, by unfold InRange at h; omega⟩)
  else none

/-- `Board.put`: writes `piece` on `p` and returns the displaced piece (with the new board). -/
def Board.put (b : Board) (p : Point) (piece : Piece) : Option (Piece × Board) :=
  if h : InRange p then
    let y : Fin 9 := ⟨p.2.toNat, by unfold InRange at h; omega⟩
    let x : Fin 7 := ⟨p.1.toNat, by unfold InRange at h; omega⟩
    some (b y x, b.set y x piece)
  else none

/-- `Board.swap`: `b.put(m[1], b.put(m[0], p))`; the inner call runs first, the outer call
acts on the board it leaves. -/
def Board.swap (b : Board) (m : PointPair) (p : Piece) : Option (Piece × Board) :=
  match b.put m.1 p with
  | none => none
  | some (displaced, b1) => b1.put m.2 displaced

/-- `Board.Move`: `b.swap(m, Empty)`. -/
def Board.Move (b : Board) (m : PointPair) : Option (Piece × Board) :=
  b.swap m Piece.Empty

/-- `Board.Unmove`: `b.swap([2]Point{m[1], m[0]}, p)`, the result discarded. -/
def Board.Unmove (b : Board) (m : PointPair) (p : Piece) : Option Board :=
  match b.swap (m.2, m.1) p with
  | none => none
  | some (_, b1) => some b1

/-- `Board.With`: `b.put(pt, p)` and the board returned. -/
def Board.With (b : Board) (pt : Point) (p : Piece) : Option Board :=
  match b.put pt p with
  | none => none
  | some (_, b1) => some b1

/-! ## The topology tables -/

def jumpPath : List (PointPair × List Point) := [
  (((1, 2), (1, 6)), [(1, 3), (1, 4), (1, 5)]),
  (((2, 2), (2, 6)), [(2, 3), (2, 4), (2, 5)]),
  (((4, 2), (4, 6)), [(4, 3), (4, 4), (4, 5)]),
  (((5, 2), (5, 6)), [(5, 3), (5, 4), (5, 5)]),
  (((1, 6), (1, 2)), [(1, 3), (1, 4), (1, 5)]),
  (((2, 6), (2, 2)), [(2, 3), (2, 4), (2, 5)]),
  (((4, 6), (4, 2)), [(4, 3), (4, 4), (4, 5)]),
  (((5, 6), (5, 2)), [(5, 3), (5, 4), (5, 5)]),
  (((0, 3), (3, 3)), [(1, 3), (2, 3)]),
  (((0, 4), (3, 4)), [(1, 4), (2, 4)]),
  (((0, 5), (3, 5)), [(1, 5), (2, 5)]),
  (((3, 3), (6, 3)), [(4, 3), (5, 3)]),
  (((3, 4), (6, 4)), [(4, 4), (5, 4)]),
  (((3, 5), (6, 5)), [(4, 5), (5, 5)]),
  (((3, 3), (0, 3)), [(1, 3), (2, 3)]),
  (((3, 4), (0, 4)), [(1, 4), (2, 4)]),
  (((3, 5), (0, 5)), [(1, 5), (2, 5)]),
  (((6, 3), (3, 3)), [(4, 3), (5, 3)]),
  (((6, 4), (3, 4)), [(4, 4), (5, 4)]),
  (((6, 5), (3, 5)), [(4, 5), (5, 5)])
]

def normalAdjacency : List (Point × List Point) := [
  -- Row 0
  ((0, 0), [(1, 0), (0, 1)]),
  ((1, 0), [(0, 0), (2, 0), (1, 1)]),
  ((2, 0), [(1, 0), (3, 0), (2, 1)]),
  ((3, 0), [(2, 0), (4, 0), (3, 1)]),
  ((4, 0), [(3, 0), (5, 0), (4, 1)]),
  ((5, 0), [(4, 0), (6, 0), (5, 1)]),
  ((6, 0), [(5, 0), (6, 1)]),
  -- Row 1
  ((0, 1), [(0, 0), (1, 1), (0, 2)]),
  ((1, 1), [(1, 0), (0, 1), (2, 1), (1, 2)]),
  ((2, 1), [(2, 0), (1, 1), (3, 1), (2, 2)]),
  ((3, 1), [(3, 0), (2, 1), (4, 1), (3, 2)]),
  ((4, 1), [(4, 0), (3, 1), (5, 1), (4, 2)]),
  ((5, 1), [(5, 0), (4, 1), (6, 1), (5, 2)]),
  ((6, 1), [(6, 0), (5, 1), (6, 2)]),
  -- Row 2
  ((0, 2), [(0, 1), (1, 2), (0, 3)]),
  ((1, 2), [(1, 1), (0, 2), (2, 2)]),
  ((2, 2), [(2, 1), (1, 2), (3, 2)]),
  ((3, 2), [(3, 1), (2, 2), (4, 2), (3, 3)]),
  ((4, 2), [(4, 1), (3, 2), (5, 2)]),
  ((5, 2), [(5, 1), (4, 2), (6, 2)]),
  ((6, 2), [(6, 1), (5, 2), (6, 3)]),
  -- Row 3
  ((0, 3), [(0, 2), (0, 4)]),
  ((1, 3), []),
  ((2, 3), []),
  ((3, 3), [(3, 2), (3, 4)]),
  ((4, 3), []),
  ((5, 3), []),
  ((6, 3), [(6, 2), (6, 4)]),
  -- Row 4
  ((0, 4), [(0, 3), (0, 5)]),
  ((1, 4), []),
  ((2, 4), []),
  ((3, 4), [(3, 3), (3, 5)]),
  ((4, 4), []),
  ((5, 4), []),
  ((6, 4), [(6, 3), (6, 5)]),
  -- Row 5
  ((0, 5), [(0, 4), (0, 6)]),
  ((1, 5), []),
  ((2, 5), []),
  ((3, 5), [(3, 4), (3, 6)]),
  ((4, 5), []),
  ((5, 5), []),
  ((6, 5), [(6, 4), (6, 6)]),
  -- Row 6
  ((0, 6), [(0, 5), (1, 6), (0, 7)]),
  ((1, 6), [(0, 6), (2, 6), (1, 7)]),
  ((2, 6), [(1, 6), (3, 6), (2, 7)]),
  ((3, 6), [(3, 5), (2, 6), (4, 6), (3, 7)]),
  ((4, 6), [(3, 6), (5, 6), (4, 7)]),
  ((5, 6), [(4, 6), (6, 6), (5, 7)]),
  ((6, 6), [(6, 5), (5, 6), (6, 7)]),
  -- Row 7
  ((0, 7), [(0, 6), (1, 7), (0, 8)]),
  ((1, 7), [(1, 6), (0, 7), (2, 7), (1, 8)]),
  ((2, 7), [(2, 6), (1, 7), (3, 7), (2, 8)]),
  ((3, 7), [(3, 6), (2, 7), (4, 7), (3, 8)]),
  ((4, 7), [(4, 6), (3, 7), (5, 7), (4, 8)]),
  ((5, 7), [(5, 6), (4, 7), (6, 7), (5, 8)]),
  ((6, 7), [(6, 6), (5, 7), (6, 8)]),
  -- Row 8
  ((0, 8), [(0, 7), (1, 8)]),
  ((1, 8), [(1, 7), (0, 8), (2, 8)]),
  ((2, 8), [(2, 7), (1, 8), (3, 8)]),
  ((3, 8), [(3, 7), (2, 8), (4, 8)]),
  ((4, 8), [(4, 7), (3, 8), (5, 8)]),
  ((5, 8), [(5, 7), (4, 8), (6, 8)]),
  ((6, 8), [(6, 7), (5, 8)])
]

def jumpingAdjacency : List (Point × List Point) := [
  -- Row 0
  ((0, 0), [(1, 0), (0, 1)]),
  ((1, 0), [(0, 0), (2, 0), (1, 1)]),
  ((2, 0), [(1, 0), (3, 0), (2, 1)]),
  ((3, 0), [(2, 0), (4, 0), (3, 1)]),
  ((4, 0), [(3, 0), (5, 0), (4, 1)]),
  ((5, 0), [(4, 0), (6, 0), (5, 1)]),
  ((6, 0), [(5, 0), (6, 1)]),
  -- Row 1
  ((0, 1), [(0, 0), (1, 1), (0, 2)]),
  ((1, 1), [(1, 0), (0, 1), (2, 1), (1, 2)]),
  ((2, 1), [(2, 0), (1, 1), (3, 1), (2, 2)]),
  ((3, 1), [(3, 0), (2, 1), (4, 1), (3, 2)]),
  ((4, 1), [(4, 0), (3, 1), (5, 1), (4, 2)]),
  ((5, 1), [(5, 0), (4, 1), (6, 1), (5, 2)]),
  ((6, 1), [(6, 0), (5, 1), (6, 2)]),
  -- Row 2
  ((0, 2), [(0, 1), (1, 2), (0, 3)]),
  ((1, 2), [(1, 1), (0, 2), (2, 2), (1, 6)]),
  ((2, 2), [(2, 1), (1, 2), (3, 2), (2, 6)]),
  ((3, 2), [(3, 1), (2, 2), (4, 2), (3, 3)]),
  ((4, 2), [(4, 1), (3, 2), (5, 2), (4, 6)]),
  ((5, 2), [(5, 1), (4, 2), (6, 2), (5, 6)]),
  ((6, 2), [(6, 1), (5, 2), (6, 3)]),
  -- Row 3
  ((0, 3), [(0, 2), (3, 3), (0, 4)]),
  ((1, 3), []),
  ((2, 3), []),
  ((3, 3), [(3, 2), (0, 3), (6, 3), (3, 4)]),
  ((4, 3), []),
  ((5, 3), []),
  ((6, 3), [(6, 2), (3, 3), (6, 4)]),
  -- Row 4
  ((0, 4), [(0, 3), (3, 4), (0, 5)]),
  ((1, 4), []),
  ((2, 4), []),
  ((3, 4), [(3, 3), (0, 4), (6, 4), (3, 5)]),
  ((4, 4), []),
  ((5, 4), []),
  ((6, 4), [(6, 3), (3, 4), (6, 5)]),
  -- Row 5
  ((0, 5), [(0, 4), (3, 5), (0, 6)]),
  ((1, 5), []),
  ((2, 5), []),
  ((3, 5), [(3, 4), (0, 5), (6, 5), (3, 6)]),
  ((4, 5), []),
  ((5, 5), []),
  ((6, 5), [(6, 4), (3, 5), (6, 6)]),
  -- Row 6
  ((0, 6), [(0, 5), (1, 6), (0, 7)]),
  ((1, 6), [(1, 2), (0, 6), (2, 6), (1, 7)]),
  ((2, 6), [(2, 2), (1, 6), (3, 6), (2, 7)]),
  ((3, 6), [(3, 5), (2, 6), (4, 6), (3, 7)]),
  ((4, 6), [(4, 2), (3, 6), (5, 6), (4, 7)]),
  ((5, 6), [(5, 2), (4, 6), (6, 6), (5, 7)]),
  ((6, 6), [(6, 5), (5, 6), (6, 7)]),
  -- Row 7
  ((0, 7), [(0, 6), (1, 7), (0, 8)]),
  ((1, 7), [(1, 6), (0, 7), (2, 7), (1, 8)]),
  ((2, 7), [(2, 6), (1, 7), (3, 7), (2, 8)]),
  ((3, 7), [(3, 6), (2, 7), (4, 7), (3, 8)]),
  ((4, 7), [(4, 6), (3, 7), (5, 7), (4, 8)]),
  ((5, 7), [(5, 6), (4, 7), (6, 7), (5, 8)]),
  ((6, 7), [(6, 6), (5, 7), (6, 8)]),
  -- Row 8
  ((0, 8), [(0, 7), (1, 8)]),
  ((1, 8), [(1, 7), (0, 8), (2, 8)]),
  ((2, 8), [(2, 7), (1, 8), (3, 8)]),
  ((3, 8), [(3, 7), (2, 8), (4, 8)]),
  ((4, 8), [(4, 7), (3, 8), (5, 8)]),
  ((5, 8), [(5, 7), (4, 8), (6, 8)]),
  ((6, 8), [(6, 7), (5, 8)])
]

def swimmingAdjacency : List (Point × List Point) := [
  -- Row 0
  ((0, 0), [(1, 0), (0, 1)]),
  ((1, 0), [(0, 0), (2, 0), (1, 1)]),
  ((2, 0), [(1, 0), (3, 0), (2, 1)]),
  ((3, 0), [(2, 0), (4, 0), (3, 1)]),
  ((4, 0), [(3, 0), (5, 0), (4, 1)]),
  ((5, 0), [(4, 0), (6, 0), (5, 1)]),
  ((6, 0), [(5, 0), (6, 1)]),
  -- Row 1
  ((0, 1), [(0, 0), (1, 1), (0, 2)]),
  ((1, 1), [(1, 0), (0, 1), (2, 1), (1, 2)]),
  ((2, 1), [(2, 0), (1, 1), (3, 1), (2, 2)]),
  ((3, 1), [(3, 0), (2, 1), (4, 1), (3, 2)]),
  ((4, 1), [(4, 0), (3, 1), (5, 1), (4, 2)]),
  ((5, 1), [(5, 0), (4, 1), (6, 1), (5, 2)]),
  ((6, 1), [(6, 0), (5, 1), (6, 2)]),
  -- Row 2
  ((0, 2), [(0, 1), (1, 2), (0, 3)]),
  ((1, 2), [(1, 1), (0, 2), (2, 2), (1, 3)]),
  ((2, 2), [(2, 1), (1, 2), (3, 2), (2, 3)]),
  ((3, 2), [(3, 1), (2, 2), (4, 2), (3, 3)]),
  ((4, 2), [(4, 1), (3, 2), (5, 2), (4, 3)]),
  ((5, 2), [(5, 1), (4, 2), (6, 2), (5, 3)]),
  ((6, 2), [(6, 1), (5, 2), (6, 3)]),
  -- Row 3
  ((0, 3), [(0, 2), (1, 3), (0, 4)]),
  ((1, 3), [(1, 2), (0, 3), (2, 3), (1, 4)]),
  ((2, 3), [(2, 2), (1, 3), (3, 3), (2, 4)]),
  ((3, 3), [(3, 2), (2, 3), (4, 3), (3, 4)]),
  ((4, 3), [(4, 2), (3, 3), (5, 3), (4, 4)]),
  ((5, 3), [(5, 2), (4, 3), (6, 3), (5, 4)]),
  ((6, 3), [(6, 2), (5, 3), (6, 4)]),
  -- Row 4
  ((0, 4), [(0, 3), (1, 4), (0, 5)]),
  ((1, 4), [(1, 3), (0, 4), (2, 4), (1, 5)]),
  ((2, 4), [(2, 3), (1, 4), (3, 4), (2, 5)]),
  ((3, 4), [(3, 3), (2, 4), (4, 4), (3, 5)]),
  ((4, 4), [(4, 3), (3, 4), (5, 4), (4, 5)]),
  ((5, 4), [(5, 3), (4, 4), (6, 4), (5, 5)]),
  ((6, 4), [(6, 3), (5, 4), (6, 5)]),
  -- Row 5
  ((0, 5), [(0, 4), (1, 5), (0, 6)]),
  ((1, 5), [(1, 4), (0, 5), (2, 5), (1, 6)]),
  ((2, 5), [(2, 4), (1, 5), (3, 5), (2, 6)]),
  ((3, 5), [(3, 4), (2, 5), (4, 5), (3, 6)]),
  ((4, 5), [(4, 4), (3, 5), (5, 5), (4, 6)]),
  ((5, 5), [(5, 4), (4, 5), (6, 5), (5, 6)]),
  ((6, 5), [(6, 4), (5, 5), (6, 6)]),
  -- Row 6
  ((0, 6), [(0, 5), (1, 6), (0, 7)]),
  ((1, 6), [(1, 5), (0, 6), (2, 6), (1, 7)]),
  ((2, 6), [(2, 5), (1, 6), (3, 6), (2, 7)]),
  ((3, 6), [(3, 5), (2, 6), (4, 6), (3, 7)]),
  ((4, 6), [(4, 5), (3, 6), (5, 6), (4, 7)]),
  ((5, 6), [(5, 5), (4, 6), (6, 6), (5, 7)]),
  ((6, 6), [(6, 5), (5, 6), (6, 7)]),
  -- Row 7
  ((0, 7), [(0, 6), (1, 7), (0, 8)]),
  ((1, 7), [(1, 6), (0, 7), (2, 7), (1, 8)]),
  ((2, 7), [(2, 6), (1, 7), (3, 7), (2, 8)]),
  ((3, 7), [(3, 6), (2, 7), (4, 7), (3, 8)]),
  ((4, 7), [(4, 6), (3, 7), (5, 7), (4, 8)]),
  ((5, 7), [(5, 6), (4, 7), (6, 7), (5, 8)]),
  ((6, 7), [(6, 6), (5, 7), (6, 8)]),
  -- Row 8
  ((0, 8), [(0, 7), (1, 8)]),
  ((1, 8), [(1, 7), (0, 8), (2, 8)]),
  ((2, 8), [(2, 7), (1, 8), (3, 8)]),
  ((3, 8), [(3, 7), (2, 8), (4, 8)]),
  ((4, 8), [(4, 7), (3, 8), (5, 8)]),
  ((5, 8), [(5, 7), (4, 8), (6, 8)]),
  ((6, 8), [(6, 7), (5, 8)])
]

/-! ## The move generator and the terminal-state detector -/

/-- Reading a Go map of slices: the value of the key, the empty slice when the key is missing. -/
def lookupAdj (adjacency : List (Point × List Point)) (frm : Point) : List Point :=
  (adjacency.lookup frm).getD []

/-- The `switch` of `MoveList` that picks the topology table of a piece: `jumpingAdjacency` when
`p.CanJump()`, else `swimmingAdjacency` when `p.CanSwim()`, else `normalAdjacency`. -/
def selectAdjacency (R : Rules) (p : Piece) : List (Point × List Point) :=
  if R.CanJump p then jumpingAdjacency
  else if R.CanSwim p then swimmingAdjacency
  else normalAdjacency

/-- The case list `ATiger, ALion, BTiger, BLion` of the jump-blocking `switch p`. -/
def isJumpCase (p : Piece) : Bool :=
  p = Piece.ATiger || p = Piece.ALion || p = Piece.BTiger || p = Piece.BLion

/-- The loop `for _, p := range path { if b.Get(p) != Empty { continue AdjacencyList } }`:
`some true` when the `continue` is taken, `some false` when the loop runs to its end. -/
def pathBlocked (b : Board) : List Point → Option Bool
  | [] => some false
  | q :: rest =>
    match b.Get q with
    | none => none
    | some r => if r ≠ Piece.Empty then some true else pathBlocked b rest

/-- The jump-blocking check of one destination: `some true` when the move is skipped. -/
def jumpBlocked (b : Board) (frm : Point) (p : Piece) (dest : Point) : Option Bool :=
  if isJumpCase p then
    match jumpPath.lookup (frm, dest) with
    | some path => pathBlocked b path
    | none => some false
  else some false

/-- The loop labelled `AdjacencyList` of `MoveList`, over the destinations still to visit, with
the slice `moves` built so far. -/
def scanAdjacency (R : Rules) (b : Board) (frm : Point) (p : Piece) :
    List Point → List PointPair → Option (List PointPair)
  | [], moves => some moves
  | dest :: rest, moves =>
    if p.Side = Side.A ∧ dest = ADen then scanAdjacency R b frm p rest moves
    else if p.Side = Side.B ∧ dest = BDen then scanAdjacency R b frm p rest moves
    else
      match jumpBlocked b frm p dest with
      | none => none
      | some true => scanAdjacency R b frm p rest moves
      | some false =>
        match b.Get dest with
        | none => none
        | some opponent =>
          let opponent := R.MaybeApplyTrap opponent dest
          if R.CanTake p opponent then scanAdjacency R b frm p rest (moves ++ [(frm, dest)])
          else scanAdjacency R b frm p rest moves

/-- The body of the two nested `for` loops of `MoveList` at the square `(x, y)`. -/
def scanSquare (R : Rules) (b : Board) (x y : Int) (moves : List PointPair) :
    Option (List PointPair) :=
  let frm : Point := (x, y)
  match b.Get frm with
  | none => none
  | some p =>
    if p = Piece.Empty then some moves
    else scanAdjacency R b frm p (lookupAdj (selectAdjacency R p) frm) moves

/-- `Board.MoveList`: `for x := 0; x < 7; x++ { for y := 0; y < 9; y++ { ... } }`. -/
def Board.MoveList (R : Rules) (b : Board) : Option (List PointPair) :=
  (List.range 7).foldlM
    (fun moves (x : Nat) =>
      (List.range 9).foldlM (fun moves (y : Nat) => scanSquare R b x y moves) moves) []

/-- The counting loop of `Winner` over the moves still to visit: `aCount` and `bCount`. The
counters are bounded by the length of the move list, far below the range of a Go `int`. -/
def countSides (b : Board) : List PointPair → Nat → Nat → Option (Nat × Nat)
  | [], aCount, bCount => some (aCount, bCount)
  | m :: rest, aCount, bCount =>
    match b.Get m.1 with
    | none => none
    | some p =>
      if p.Side = Side.A then countSides b rest (aCount + 1) bCount
      else countSides b rest aCount (bCount + 1)

/-- `Board.Winner`. -/
def Board.Winner (R : Rules) (b : Board) : Option Side :=
  match b.Get BDen with
  | none => none
  | some onBDen =>
    if onBDen.Side = Side.A then some Side.A
    else
      match b.Get ADen with
      | none => none
      | some onADen =>
        if onADen.Side = Side.B then some Side.B
        else
          match b.MoveList R with
          | none => none
          | some moves =>
            match countSides b moves 0 0 with
            | none => none
            | some (aCount, bCount) =>
              if aCount = 0 then some Side.B
              else if bCount = 0 then some Side.A
              else some Side.None

/-! ## The piece methods of the spec, and fixtures -/

/-- Modelled from the spec: the rank table of the species is not part of `board.go`. The spec asks
for a total order with the swimmer weakest and the two jumpers among the strongest; `Empty` ranks
below every species. -/
def Piece.rank : Piece → Nat
  | .Empty => 0
  | .AMouse | .BMouse => 1
  | .ACat | .BCat => 2
  | .ADog | .BDog => 3
  | .AWolf | .BWolf => 4
  | .AHyena | .BHyena => 5
  | .ATiger | .BTiger => 6
  | .ALion | .BLion => 7
  | .AElephant | .BElephant => 8

/-- Modelled from the spec: `Piece.CanJump` is not part of `board.go`; exactly two species are
jump-capable, the ones the jump-blocking `switch` of `MoveList` names. -/
def stdCanJump (p : Piece) : Bool :=
  p = Piece.ATiger || p = Piece.ALion || p = Piece.BTiger || p = Piece.BLion

/-- Modelled from the spec: `Piece.CanSwim` is not part of `board.go`; exactly one species, the
weakest-ranked, may enter the river. -/
def stdCanSwim (p : Piece) : Bool :=
  p = Piece.AMouse || p = Piece.BMouse

/-- Modelled from the spec: `Piece.CanTake` is not part of `board.go`. The attacker captures a
defender of equal or lower rank, and the weakest species captures the strongest; the spec puts
no side test in this predicate. -/
def stdCanTake (attacker defender : Piece) : Bool :=
  decide (defender.rank ≤ attacker.rank) || (decide (attacker.rank = 1) && decide (defender.rank = 8))

/-- Modelled from the spec: `Piece.MaybeApplyTrap` is not part of `board.go`. A piece standing on
a trap of the other side counts with the lowest rank of a species, that of its own side's mouse;
any other piece is unchanged. -/
def stdMaybeApplyTrap (p : Piece) (pt : Point) : Piece :=
  if p.Side = Side.A ∧ (pt = BTrap1 ∨ pt = BTrap2 ∨ pt = BTrap3) then Piece.AMouse
  else if p.Side = Side.B ∧ (pt = ATrap1 ∨ pt = ATrap2 ∨ pt = ATrap3) then Piece.BMouse
  else p

/-- Modelled from the spec: the piece methods of §4.2 put together. -/
def stdRules : Rules :=
  { CanJump := stdCanJump, CanSwim := stdCanSwim, CanTake := stdCanTake,
    MaybeApplyTrap := stdMaybeApplyTrap }

/-- A board given by its array literal, row by row; a missing entry is the zero value `Empty`. -/
def Board.ofRows (rows : List (List Piece)) : Board :=
  fun r c => (rows.getD r.val []).getD c.val Piece.Empty

/-- `NewBoard`: the starting layout. -/
def NewBoard : Board :=
  Board.ofRows [
    -- Row 0
    [.ALion, .Empty, .Empty, .Empty, .Empty, .Empty, .ATiger],
    -- Row 1
    [.Empty, .ADog, .Empty, .Empty, .Empty, .ACat, .Empty],
    -- Row 2
    [.AMouse, .Empty, .AHyena, .Empty, .AWolf, .Empty, .AElephant],
    -- Row 3
    [.Empty, .Empty, .Empty, .Empty, .Empty, .Empty, .Empty],
    -- Row 4
    [.Empty, .Empty, .Empty, .Empty, .Empty, .Empty, .Empty],
    -- Row 5
    [.Empty, .Empty, .Empty, .Empty, .Empty, .Empty, .Empty],
    -- Row 6
    [.BElephant, .Empty, .BWolf, .Empty, .BHyena, .Empty, .BMouse],
    -- Row 7
    [.Empty, .BCat, .Empty, .Empty, .Empty, .BDog, .Empty],
    -- Row 8
    [.BTiger, .Empty, .Empty, .Empty, .Empty, .Empty, .BLion]]

/-- A fixture: a side-A lion in the corner `(0,0)` with a side-A mouse next to it on `(1,0)`. -/
def lionCorner : Board :=
  Board.ofRows [[.ALion, .AMouse]]

/-- A fixture: a side-A dog on `(2,0)` next to its own den and a side-B dog on `(2,8)` next to
its own den. -/
def denGuards : Board :=
  Board.ofRows [
    [.Empty, .Empty, .ADog],
    [], [], [], [], [], [], [],
    [.Empty, .Empty, .BDog]]

/-- A fixture: a side-A tiger on `(1,2)` before the river lane of file 1, a side-B cat beyond it
on `(1,6)`, and a side-B mouse in the river on `(1,4)`. -/
def blockedLane : Board :=
  Board.ofRows [
    [], [],
    [.Empty, .ATiger],
    [],
    [.Empty, .BMouse],
    [],
    [.Empty, .BCat]]

/-- The fixture `blockedLane` with the mouse taken out of the river. -/
def clearLane : Board :=
  Board.ofRows [
    [], [],
    [.Empty, .ATiger],
    [], [], [],
    [.Empty, .BCat]]

/-- The capture predicate `stdCanTake` made to refuse, in addition, a defender of the attacker's
side. -/
def sideAwareCanTake (attacker defender : Piece) : Bool :=
  decide (attacker.Side ≠ defender.Side) && stdCanTake attacker defender

/-- The rules of `stdRules` with `sideAwareCanTake` as the capture predicate. -/
def sideAwareRules : Rules :=
  { stdRules with CanTake := sideAwareCanTake }

/-- River squares: files 1, 2, 4, 5 on ranks 3, 4, 5. -/
def isRiver (p : Point) : Bool :=
  (p.1 = 1 || p.1 = 2 || p.1 = 4 || p.1 = 5) && (p.2 = 3 || p.2 = 4 || p.2 = 5)

/-- A fixture: a side-B mouse on the bank square `(1,6)` above the river. -/
def mouseBank : Board :=
  Board.ofRows [[], [], [], [], [], [], [.Empty, .BMouse]]

/-- A fixture: a side-B cat on `ADen` shut in by three side-A dogs on the traps around it, and
nothing on `BDen`. -/
def denRaidB : Board :=
  Board.ofRows [
    [.Empty, .Empty, .ADog, .BCat, .ADog],
    [.Empty, .Empty, .Empty, .ADog]]

/-- The fixture `denRaidB` with, in addition, a side-A mouse on `BDen`. -/
def denRaid : Board :=
  Board.ofRows [
    [.Empty, .Empty, .ADog, .BCat, .ADog],
    [.Empty, .Empty, .Empty, .ADog],
    [], [], [], [], [], [],
    [.Empty, .Empty, .Empty, .AMouse]]

/-- A fixture: a side-B cat in the corner `(0,0)` shut in by two side-A dogs on `(1,0)` and
`(0,1)`; both dens are `Empty`. -/
def boxedIn : Board :=
  Board.ofRows [
    [.BCat, .ADog],
    [.ADog]]

/-- A fixture: a side-A cat in the corner `(0,0)` shut in by two side-B dogs on `(1,0)` and
`(0,1)`; both dens are `Empty`. -/
def boxedInA : Board :=
  Board.ofRows [
    [.ACat, .BDog],
    [.BDog]]

/-! ## The pure reading of the generator, used to reason about `MoveList` -/

/-- The occupant of a square, `Empty` standing in for a point outside the array. -/
def Board.occ (b : Board) (p : Point) : Piece := (b.Get p).getD Piece.Empty

/-- The two den tests at the head of the `AdjacencyList` loop. -/
def ownDen (p : Piece) (dest : Point) : Bool :=
  (p.Side = Side.A ∧ dest = ADen) ∨ (p.Side = Side.B ∧ dest = BDen)

/-- Some square of `path` is occupied. -/
def occupiedOn (b : Board) (path : List Point) : Bool :=
  path.any (fun q => b.occ q ≠ Piece.Empty)

/-- The jump-blocking test as a boolean. -/
def blocked (b : Board) (frm : Point) (p : Piece) (dest : Point) : Bool :=
  isJumpCase p && (match jumpPath.lookup (frm, dest) with
    | some path => occupiedOn b path
    | none => false)

/-- The three tests a destination passes to be appended to `moves`. -/
def eligible (R : Rules) (b : Board) (frm : Point) (p : Piece) (dest : Point) : Bool :=
  !ownDen p dest && !blocked b frm p dest && R.CanTake p (R.MaybeApplyTrap (b.occ dest) dest)

/-- The moves appended while the loops visit the square `frm`. -/
def movesAt (R : Rules) (b : Board) (frm : Point) : List PointPair :=
  if b.occ frm = Piece.Empty then []
  else ((lookupAdj (selectAdjacency R (b.occ frm)) frm).filter
    (fun dest => eligible R b frm (b.occ frm) dest)).map (fun dest => (frm, dest))

/-- The move list as a pure function of the board. -/
def moveSet (R : Rules) (b : Board) : List PointPair :=
  (List.range 7).flatMap (fun x => (List.range 9).flatMap (fun y => movesAt R b ((x : Int), (y : Int))))

/-- The number of moves of `moves` whose mover has side `A`. -/
def countA (b : Board) (moves : List PointPair) : Nat :=
  moves.countP (fun m => (b.occ m.1).Side = Side.A)

/-- The number of moves of `moves` whose mover does not have side `A`. -/
def countNotA (b : Board) (moves : List PointPair) : Nat :=
  moves.countP (fun m => (b.occ m.1).Side ≠ Side.A)

/-! ## Definitions for the topology, layout and conservation properties -/

/-- The value a Go `int` (64 bits, two's complement) holds after an arithmetic operation whose
exact result is `n`. -/
def wrapInt64 (n : Int) : Int := (n + 2 ^ 63) % 2 ^ 64 - 2 ^ 63

/-- `Point.Rotate`: `Point{6 - p[0], 8 - p[1]}`. -/
def Point.Rotate (p : Point) : Point := (wrapInt64 (6 - p.1), wrapInt64 (8 - p.2))

/-- The 63 squares in the order the two `for` loops of `MoveList` visit them: files outer, ranks
inner. -/
def allSquares : List Point :=
  (List.range 7).flatMap
    (fun (x : Nat) => (List.range 9).map (fun (y : Nat) => ((x : Int), (y : Int))))

/-- The order of the scan on origins: lexicographic on (file, rank). -/
def scanLE (p q : Point) : Prop := p.1 < q.1 ∨ (p.1 = q.1 ∧ p.2 ≤ q.2)

instance (p q : Point) : Decidable (scanLE p q) := by unfold scanLE; infer_instance

/-- The orthogonal neighbours of a point that lie inside the 7x9 grid. -/
def neighbours (p : Point) : List Point :=
  [(p.1 - 1, p.2), (p.1 + 1, p.2), (p.1, p.2 - 1), (p.1, p.2 + 1)].filter
    (fun q => decide (InRange q))

/-- Two points are orthogonal neighbours: they differ by one step on one coordinate. -/
def Adjacent (p q : Point) : Prop :=
  (q.2 = p.2 ∧ (q.1 = p.1 - 1 ∨ q.1 = p.1 + 1)) ∨ (q.1 = p.1 ∧ (q.2 = p.2 - 1 ∨ q.2 = p.2 + 1))

instance (p q : Point) : Decidable (Adjacent p q) := by unfold Adjacent; infer_instance

/-- The keys of the map `jumpPath`. -/
def jumpKeys : List PointPair := jumpPath.map Prod.fst

/-- The squares strictly between `o` and `d` when they share a file or a rank, by increasing
coordinate; the empty list otherwise. -/
def between (o d : Point) : List Point :=
  if o.1 = d.1 then
    (List.range ((max o.2 d.2 - min o.2 d.2).toNat - 1)).map
      (fun (k : Nat) => (o.1, min o.2 d.2 + 1 + (k : Int)))
  else if o.2 = d.2 then
    (List.range ((max o.1 d.1 - min o.1 d.1).toNat - 1)).map
      (fun (k : Nat) => (min o.1 d.1 + 1 + (k : Int), o.2))
  else []

/-- Modelled from the spec: species and side are not declared in `board.go`; read off the piece
names, this is the piece of the same species on the other side, and `Empty` for `Empty`. -/
def Piece.mirror : Piece → Piece
  | .Empty => .Empty
  | .AMouse => .BMouse | .ACat => .BCat | .ADog => .BDog | .AWolf => .BWolf
  | .AHyena => .BHyena | .ATiger => .BTiger | .ALion => .BLion | .AElephant => .BElephant
  | .BMouse => .AMouse | .BCat => .ACat | .BDog => .ADog | .BWolf => .AWolf
  | .BHyena => .AHyena | .BTiger => .ATiger | .BLion => .ALion | .BElephant => .AElephant

/-- The sixteen named pieces. -/
def namedPieces : List Piece :=
  [.AMouse, .ACat, .ADog, .AWolf, .AHyena, .ATiger, .ALion, .AElephant,
   .BMouse, .BCat, .BDog, .BWolf, .BHyena, .BTiger, .BLion, .BElephant]

/-- The number of squares of the board that hold the piece `piece`. -/
def squaresHolding (b : Board) (piece : Piece) : Nat :=
  allSquares.countP (fun q => b.occ q = piece)

/-- The number of non-empty squares of the board. -/
def pieceCount (b : Board) : Nat :=
  allSquares.countP (fun q => b.occ q ≠ Piece.Empty)

/-- A sequence of `Move` calls, each on the board the previous one left; the displaced pieces
are dropped. -/
def applyMoves : Board → List PointPair → Option Board
  | b, [] => some b
  | b, m :: rest =>
    match b.Move m with
    | none => none
    | some (_, b1) => applyMoves b1 rest

/-! ## The generator computes the pure reading -/

theorem Get_of_inRange (b : Board) (p : Point) (h : InRange p) : b.Get p = some (b.occ p) := by
  unfold Board.occ Board.Get
  simp [h]

theorem Get_eq_some (b : Board) (p : Point) (piece : Piece) (h : b.Get p = some piece) :
    InRange p ∧ b.occ p = piece := by
  unfold Board.occ
  constructor
  · by_contra hn
    unfold Board.Get at h
    simp [hn] at h
  · simp [h]

theorem lookup_mem {α β : Type} [BEq α] [LawfulBEq α] (k : α) (v : β) :
    ∀ l : List (α × β), l.lookup k = some v → (k, v) ∈ l
  | [], h => by simp at h
  | (k1, v1) :: l, h => by
    rw [List.lookup_cons] at h
    by_cases hk : k == k1
    · simp only [hk] at h
      have : k = k1 := by simpa using hk
      subst this
      simp only [Option.some.injEq] at h
      subst h
      simp
    · simp only [hk] at h
      exact List.mem_cons_of_mem _ (lookup_mem k v l h)

theorem jumpPath_inRange : ∀ e ∈ jumpPath, ∀ q ∈ e.2, InRange q := by decide

theorem normalAdjacency_inRange : ∀ e ∈ normalAdjacency, ∀ q ∈ e.2, InRange q := by decide

theorem jumpingAdjacency_inRange : ∀ e ∈ jumpingAdjacency, ∀ q ∈ e.2, InRange q := by decide

theorem swimmingAdjacency_inRange : ∀ e ∈ swimmingAdjacency, ∀ q ∈ e.2, InRange q := by decide

theorem lookupAdj_inRange (adjacency : List (Point × List Point))
    (h : ∀ e ∈ adjacency, ∀ q ∈ e.2, InRange q) (frm : Point) :
    ∀ q ∈ lookupAdj adjacency frm, InRange q := by
  intro q hq
  unfold lookupAdj at hq
  cases hl : adjacency.lookup frm with
  | none => simp [hl] at hq
  | some l =>
    simp only [hl, Option.getD_some] at hq
    exact h _ (lookup_mem frm l adjacency hl) q hq

theorem selectAdjacency_inRange (R : Rules) (p : Piece) (frm : Point) :
    ∀ q ∈ lookupAdj (selectAdjacency R p) frm, InRange q := by
  unfold selectAdjacency
  split
  · exact lookupAdj_inRange _ jumpingAdjacency_inRange frm
  · split
    · exact lookupAdj_inRange _ swimmingAdjacency_inRange frm
    · exact lookupAdj_inRange _ normalAdjacency_inRange frm

theorem pathBlocked_eq (b : Board) :
    ∀ path : List Point, (∀ q ∈ path, InRange q) → pathBlocked b path = some (occupiedOn b path)
  | [], _ => by simp [pathBlocked, occupiedOn]
  | q :: rest, h => by
    have hq : InRange q := h q (List.mem_cons_self _ _)
    have hrest : ∀ r ∈ rest, InRange r := fun r hr => h r (List.mem_cons_of_mem _ hr)
    have ih := pathBlocked_eq b rest hrest
    unfold pathBlocked
    rw [Get_of_inRange b q hq]
    by_cases hocc : b.occ q = Piece.Empty
    · simp [hocc, ih, occupiedOn]
    · simp [hocc, occupiedOn]

theorem jumpBlocked_eq (b : Board) (frm : Point) (p : Piece) (dest : Point) :
    jumpBlocked b frm p dest = some (blocked b frm p dest) := by
  unfold jumpBlocked blocked
  by_cases hj : isJumpCase p = true
  · simp only [hj, if_true, Bool.true_and]
    cases hl : jumpPath.lookup (frm, dest) with
    | none => rfl
    | some path =>
      exact pathBlocked_eq b path (jumpPath_inRange _ (lookup_mem _ path jumpPath hl))
  · simp [hj]

theorem scanAdjacency_eq (R : Rules) (b : Board) (frm : Point) (p : Piece) :
    ∀ (dests : List Point) (moves : List PointPair), (∀ q ∈ dests, InRange q) →
      scanAdjacency R b frm p dests moves =
        some (moves ++ (dests.filter (fun dest => eligible R b frm p dest)).map
          (fun dest => (frm, dest)))
  | [], moves, _ => by simp [scanAdjacency]
  | dest :: rest, moves, h => by
    have hd : InRange dest := h dest (List.mem_cons_self _ _)
    have hrest : ∀ r ∈ rest, InRange r := fun r hr => h r (List.mem_cons_of_mem _ hr)
    have ih := fun moves => scanAdjacency_eq R b frm p rest moves hrest
    unfold scanAdjacency
    by_cases hA : p.Side = Side.A ∧ dest = ADen
    · have he : eligible R b frm p dest = false := by simp [eligible, ownDen, hA]
      have hf : (dest :: rest).filter (fun dest => eligible R b frm p dest) =
          rest.filter (fun dest => eligible R b frm p dest) := by simp [List.filter_cons, he]
      rw [hf, if_pos hA, ih]
    · by_cases hB : p.Side = Side.B ∧ dest = BDen
      · have he : eligible R b frm p dest = false := by simp [eligible, ownDen, hB]
        have hf : (dest :: rest).filter (fun dest => eligible R b frm p dest) =
            rest.filter (fun dest => eligible R b frm p dest) := by simp [List.filter_cons, he]
        rw [hf, if_neg hA, if_pos hB, ih]
      · have hden : ownDen p dest = false := by simp [ownDen, hA, hB]
        simp only [hA, hB, if_false, jumpBlocked_eq, Get_of_inRange b dest hd]
        by_cases hbl : blocked b frm p dest = true
        · have he : eligible R b frm p dest = false := by simp [eligible, hbl]
          simp only [hbl, ih, List.filter_cons, he]
          simp
        · have hbl2 : blocked b frm p dest = false := by simpa using hbl
          by_cases hc : R.CanTake p (R.MaybeApplyTrap (b.occ dest) dest) = true
          · have he : eligible R b frm p dest = true := by simp [eligible, hden, hbl2, hc]
            simp only [hbl2, hc, if_true, ih, List.filter_cons, he]
            simp
          · have he : eligible R b frm p dest = false := by simp [eligible, hc]
            simp only [hbl2, hc, ih, List.filter_cons, he]
            simp

theorem scanSquare_eq (R : Rules) (b : Board) (x y : Int) (moves : List PointPair)
    (h : InRange (x, y)) : scanSquare R b x y moves = some (moves ++ movesAt R b (x, y)) := by
  unfold scanSquare movesAt
  simp only [Get_of_inRange b (x, y) h]
  by_cases he : b.occ (x, y) = Piece.Empty
  · simp [he]
  · simp only [he, if_false]
    exact scanAdjacency_eq R b (x, y) _ _ moves (selectAdjacency_inRange R _ _)

theorem foldlM_append {α β : Type} (f : List β → α → Option (List β)) (g : α → List β) :
    ∀ (l : List α) (acc : List β), (∀ a ∈ l, ∀ acc, f acc a = some (acc ++ g a)) →
      l.foldlM f acc = some (acc ++ l.flatMap g)
  | [], acc, _ => by simp
  | a :: l, acc, h => by
    have ha := h a (List.mem_cons_self _ _) acc
    have ih := foldlM_append f g l (acc ++ g a) (fun a1 h1 => h a1 (List.mem_cons_of_mem _ h1))
    simp only [List.foldlM_cons, ha, Option.bind_eq_bind, Option.some_bind, ih,
      List.flatMap_cons, List.append_assoc]

theorem MoveList_eq (R : Rules) (b : Board) : b.MoveList R = some (moveSet R b) := by
  unfold Board.MoveList moveSet
  have := foldlM_append
    (fun moves (x : Nat) => (List.range 9).foldlM (fun moves (y : Nat) => scanSquare R b x y moves) moves)
    (fun x : Nat => (List.range 9).flatMap (fun y : Nat => movesAt R b ((x : Int), (y : Int))))
    (List.range 7) [] ?_
  · simpa using this
  · intro x hx acc
    apply foldlM_append
    intro y hy acc1
    apply scanSquare_eq
    simp only [List.mem_range] at hx hy
    unfold InRange
    simp only
    omega

theorem inRange_iff_scanned (o : Point) :
    InRange o ↔ ∃ x : Nat, x < 7 ∧ ∃ y : Nat, y < 9 ∧ o = ((x : Int), (y : Int)) := by
  obtain ⟨ox, oy⟩ := o
  unfold InRange
  constructor
  · rintro ⟨h1, h2, h3, h4⟩
    refine ⟨ox.toNat, by omega, oy.toNat, by omega, ?_⟩
    simp only [Prod.mk.injEq]
    constructor <;> omega
  · rintro ⟨x, hx, y, hy, h⟩
    simp only [Prod.mk.injEq] at h
    obtain ⟨rfl, rfl⟩ := h
    simp only
    omega

theorem mem_movesAt (R : Rules) (b : Board) (frm o d : Point) :
    (o, d) ∈ movesAt R b frm ↔
      o = frm ∧ b.occ o ≠ Piece.Empty ∧ d ∈ lookupAdj (selectAdjacency R (b.occ o)) o ∧
        eligible R b o (b.occ o) d = true := by
  unfold movesAt
  by_cases he : b.occ frm = Piece.Empty
  · simp only [he, if_true, List.not_mem_nil, false_iff]
    rintro ⟨rfl, h, _⟩
    exact h he
  · simp only [he, if_false, List.mem_map, List.mem_filter, Prod.mk.injEq]
    constructor
    · rintro ⟨a, ⟨h1, h2⟩, rfl, rfl⟩
      exact ⟨rfl, he, h1, h2⟩
    · rintro ⟨rfl, _, h1, h2⟩
      exact ⟨d, ⟨h1, h2⟩, rfl, rfl⟩

/-- Membership in the move list, test by test. -/
theorem mem_moveSet (R : Rules) (b : Board) (o d : Point) :
    (o, d) ∈ moveSet R b ↔
      InRange o ∧ b.occ o ≠ Piece.Empty ∧ d ∈ lookupAdj (selectAdjacency R (b.occ o)) o ∧
        eligible R b o (b.occ o) d = true := by
  unfold moveSet
  simp only [List.mem_flatMap, List.mem_range, mem_movesAt, inRange_iff_scanned]
  constructor
  · rintro ⟨x, hx, y, hy, ho, h⟩
    exact ⟨⟨x, hx, y, hy, ho⟩, h⟩
  · rintro ⟨⟨x, hx, y, hy, ho⟩, h⟩
    exact ⟨x, hx, y, hy, ho, h⟩

theorem moveSet_origin_inRange (R : Rules) (b : Board) :
    ∀ m ∈ moveSet R b, InRange m.1 := by
  rintro ⟨o, d⟩ hm
  exact ((mem_moveSet R b o d).1 hm).1

theorem moveSet_dest_inRange (R : Rules) (b : Board) :
    ∀ m ∈ moveSet R b, InRange m.2 := by
  rintro ⟨o, d⟩ hm
  exact selectAdjacency_inRange R _ o d ((mem_moveSet R b o d).1 hm).2.2.1

theorem countSides_eq (b : Board) :
    ∀ (moves : List PointPair) (aCount bCount : Nat), (∀ m ∈ moves, InRange m.1) →
      countSides b moves aCount bCount =
        some (aCount + countA b moves, bCount + countNotA b moves)
  | [], aCount, bCount, _ => by simp [countSides, countA, countNotA]
  | m :: rest, aCount, bCount, h => by
    have hm : InRange m.1 := h m (List.mem_cons_self _ _)
    have ih := fun a c => countSides_eq b rest a c (fun r hr => h r (List.mem_cons_of_mem _ hr))
    unfold countSides
    rw [Get_of_inRange b m.1 hm]
    by_cases hs : (b.occ m.1).Side = Side.A
    · simp only [hs, if_true, ih, countA, countNotA, List.countP_cons]
      simp [hs, Nat.add_assoc, Nat.add_comm]
    · simp only [hs, if_false, ih, countA, countNotA, List.countP_cons]
      simp [hs, Nat.add_assoc, Nat.add_comm]

theorem ADen_inRange : InRange ADen := by decide

theorem BDen_inRange : InRange BDen := by decide

/-- The value of `Winner` in terms of the two den occupants and the two counts. -/
theorem Winner_eq (R : Rules) (b : Board) :
    b.Winner R =
      some (if (b.occ BDen).Side = Side.A then Side.A
        else if (b.occ ADen).Side = Side.B then Side.B
        else if countA b (moveSet R b) = 0 then Side.B
        else if countNotA b (moveSet R b) = 0 then Side.A
        else Side.None) := by
  unfold Board.Winner
  simp only [Get_of_inRange b BDen BDen_inRange, Get_of_inRange b ADen ADen_inRange,
    MoveList_eq, countSides_eq b (moveSet R b) 0 0 (moveSet_origin_inRange R b), Nat.zero_add]
  split_ifs <;> rfl

theorem side_cases (p : Piece) : p ≠ Piece.Empty → p.Side = Side.A ∨ p.Side = Side.B := by
  cases p <;> simp [Piece.Side]

/-- Membership in the move list for a known mover. -/
theorem mem_moveSet_of_Get (R : Rules) (b : Board) (o d : Point) (p : Piece)
    (hp : b.Get o = some p) :
    (o, d) ∈ moveSet R b ↔
      p ≠ Piece.Empty ∧ d ∈ lookupAdj (selectAdjacency R p) o ∧ ownDen p d = false ∧
        blocked b o p d = false ∧ R.CanTake p (R.MaybeApplyTrap (b.occ d) d) = true := by
  obtain ⟨hr, hocc⟩ := Get_eq_some b o p hp
  rw [mem_moveSet, hocc]
  simp only [eligible, Bool.and_eq_true, Bool.not_eq_true', hr, true_and]
  tauto

theorem blocked_of_occupied (b : Board) (o d : Point) (p : Piece) (path : List Point)
    (hkey : jumpPath.lookup (o, d) = some path) (hcase : isJumpCase p = true)
    (hocc : ∃ q ∈ path, b.Get q ≠ some Piece.Empty) : blocked b o p d = true := by
  obtain ⟨q, hq, hne⟩ := hocc
  have hr : InRange q := jumpPath_inRange _ (lookup_mem _ path jumpPath hkey) q hq
  rw [Get_of_inRange b q hr] at hne
  unfold blocked
  simp only [hcase, hkey, Bool.true_and, occupiedOn, List.any_eq_true]
  exact ⟨q, hq, by simpa using hne⟩

theorem not_blocked_of_clear (b : Board) (o d : Point) (p : Piece) (path : List Point)
    (hkey : jumpPath.lookup (o, d) = some path)
    (hclear : ∀ q ∈ path, b.Get q = some Piece.Empty) : blocked b o p d = false := by
  unfold blocked
  simp only [hkey, Bool.and_eq_false_imp, occupiedOn]
  intro _
  rw [List.any_eq_false]
  intro q hq
  have := (Get_eq_some b q _ (hclear q hq)).2
  simp [this]

theorem jumpPath_dest_listed : ∀ e ∈ jumpPath, e.1.2 ∈ lookupAdj jumpingAdjacency e.1.1 := by
  decide

theorem isJumpCase_iff (p : Piece) :
    isJumpCase p = true ↔
      p = Piece.ATiger ∨ p = Piece.ALion ∨ p = Piece.BTiger ∨ p = Piece.BLion := by
  simp [isJumpCase, or_assoc]

theorem ownDen_eq_false (p : Piece) (d : Point) :
    ownDen p d = false ↔
      ¬ (p.Side = Side.A ∧ d = ADen) ∧ ¬ (p.Side = Side.B ∧ d = BDen) := by
  simp [ownDen]

/-! ## Board mutation -/

/-- C1: Move/unmove inverse law. For every board and every pair of in-range points `(o,d)`
(equal or not), `Move` returns a piece `x`, and `Unmove` with `x` on the board `Move` left
returns a board on which every one of the 63 squares holds the piece it held before. -/
theorem move_unmove_inverse (b : Board) (o d : Point) (ho : InRange o) (hd : InRange d) :
    ∃ x b1 b2, b.Move (o, d) = some (x, b1) ∧ b1.Unmove (o, d) x = some b2 ∧
      ∀ (r : Fin 9) (c : Fin 7), b2 r c = b r c := by
  simp only [Board.Move, Board.Unmove, Board.swap, Board.put, ho, hd, dite_true]
  refine ⟨_, _, _, rfl, rfl, ?_⟩
  intro r c
  simp only [Board.set]
  split_ifs <;> simp_all

/-- C1, at a concrete input: the side-A mouse of the starting layout stepping from `(0,2)` to
`(0,3)` and back. -/
theorem move_unmove_inverse_witness :
    InRange (0, 2) ∧ InRange (0, 3) ∧
      ∃ x b1 b2, NewBoard.Move ((0, 2), (0, 3)) = some (x, b1) ∧
        b1.Unmove ((0, 2), (0, 3)) x = some b2 ∧ ∀ (r : Fin 9) (c : Fin 7), b2 r c = NewBoard r c :=
  ⟨by decide, by decide, move_unmove_inverse NewBoard (0, 2) (0, 3) (by decide) (by decide)⟩

/-- C2, as stated, fails when origin and destination are the same square: `Move` of the lion of
`lionCorner` from `(0,0)` to `(0,0)` returns `Empty`, not the lion that stood on the destination,
and leaves the lion on the origin. -/
theorem move_same_square_counterexample :
    lionCorner.Get (0, 0) = some Piece.ALion ∧
      ∃ b1, lionCorner.Move ((0, 0), (0, 0)) = some (Piece.Empty, b1) ∧
        b1.Get (0, 0) = some Piece.ALion :=
  ⟨rfl, _, rfl, rfl⟩

/-- C2, amended: for every board and every pair of in-range points `(o,d)`, `Move` returns; when
`o ≠ d`, afterwards `o` is `Empty`, `d` holds the piece that was on `o`, and the value returned is
the piece that was on `d`; when `o = d` the board is unchanged and `Empty` is returned. No legality
test is made. -/
theorem move_postcondition (b : Board) (o d : Point) (ho : InRange o) (hd : InRange d) :
    ∃ x b1, b.Move (o, d) = some (x, b1) ∧
      (o ≠ d → b1.Get o = some Piece.Empty ∧ b1.Get d = b.Get o ∧ b.Get d = some x) ∧
      (o = d → x = Piece.Empty ∧ ∀ (r : Fin 9) (c : Fin 7), b1 r c = b r c) := by
  simp only [Board.Move, Board.swap, Board.put, ho, hd, dite_true]
  refine ⟨_, _, rfl, ?_, ?_⟩
  · intro hne
    have hidx : ¬ (o.2.toNat = d.2.toNat ∧ o.1.toNat = d.1.toNat) := by
      intro h
      apply hne
      unfold InRange at ho hd
      apply Prod.ext <;> omega
    simp only [Board.Get, ho, hd, dite_true, Board.set, Fin.mk.injEq, and_self, if_true]
    refine ⟨?_, ?_, ?_⟩
    · simp [hidx]
    · trivial
    · have hidx2 : ¬ (d.2.toNat = o.2.toNat ∧ d.1.toNat = o.1.toNat) :=
        fun h => hidx ⟨h.1.symm, h.2.symm⟩
      simp [hidx2]
  · intro heq
    subst heq
    simp only [Board.set, and_self, if_true, true_and]
    intro r c
    split_ifs <;> simp_all

/-- C2 amended, at a concrete input: the lion of `lionCorner` capturing from `(0,0)` to `(1,0)`. -/
theorem move_postcondition_witness :
    InRange (0, 0) ∧ InRange (1, 0) ∧
      ∃ x b1, lionCorner.Move ((0, 0), (1, 0)) = some (x, b1) ∧
        (((0, 0) : Point) ≠ (1, 0) → b1.Get (0, 0) = some Piece.Empty ∧
          b1.Get (1, 0) = lionCorner.Get (0, 0) ∧ lionCorner.Get (1, 0) = some x) ∧
        (((0, 0) : Point) = (1, 0) → x = Piece.Empty ∧
          ∀ (r : Fin 9) (c : Fin 7), b1 r c = lionCorner r c) :=
  ⟨by decide, by decide, move_postcondition lionCorner (0, 0) (1, 0) (by decide) (by decide)⟩

/-! ## Move generation -/

/-- C3: Den-entry exclusion. Whatever the piece methods are, `MoveList` returns, and for every
move `(o,d)` of the list the piece on `o` is not of side A with `d = ADen` and not of side B with
`d = BDen`. -/
theorem den_entry_exclusion (R : Rules) (b : Board) :
    ∃ moves, b.MoveList R = some moves ∧
      ∀ o d, (o, d) ∈ moves →
        ∃ p, b.Get o = some p ∧ (p.Side = Side.A → d ≠ ADen) ∧ (p.Side = Side.B → d ≠ BDen) := by
  refine ⟨moveSet R b, MoveList_eq R b, ?_⟩
  intro o d hm
  have ho : InRange o := moveSet_origin_inRange R b _ hm
  have hg := Get_of_inRange b o ho
  have h := ((mem_moveSet_of_Get R b o d _ hg).1 hm).2.2.1
  rw [ownDen_eq_false] at h
  exact ⟨b.occ o, hg, fun hA hd => h.1 ⟨hA, hd⟩, fun hB hd => h.2 ⟨hB, hd⟩⟩

/-- C3, at a concrete input: on `denGuards` each dog has three neighbours and keeps the two
that are not its own den. -/
theorem den_entry_exclusion_witness :
    denGuards.MoveList stdRules =
        some [((2, 0), (1, 0)), ((2, 0), (2, 1)), ((2, 8), (2, 7)), ((2, 8), (1, 8))] ∧
      ∃ moves, denGuards.MoveList stdRules = some moves ∧
        ∀ o d, (o, d) ∈ moves →
          ∃ p, denGuards.Get o = some p ∧ (p.Side = Side.A → d ≠ ADen) ∧
            (p.Side = Side.B → d ≠ BDen) :=
  ⟨by decide, den_entry_exclusion stdRules denGuards⟩

/-- C4: Jump blocking. Let `(o,d)` be a key of `jumpPath` with path `path`, and let the piece `p`
on `o` be one of `ATiger`, `ALion`, `BTiger`, `BLion`. `MoveList` returns, and
(1) if some square of the path is not `Empty`, `(o,d)` is not in the list;
(2) if `p` is jump-capable (`CanJump`) and all squares of the path are `Empty`, `(o,d)` is in the
list exactly when `d` is not the mover's own den and the capture test on `d` passes;
(3) on any other board with the same pieces on `o` and `d` and the path again all `Empty`,
`(o,d)` is generated exactly when it is generated here with the path all `Empty`. -/
theorem jump_blocking (R : Rules) (b : Board) (o d : Point) (path : List Point) (p : Piece)
    (hkey : jumpPath.lookup (o, d) = some path) (hp : b.Get o = some p)
    (hcase : p = Piece.ATiger ∨ p = Piece.ALion ∨ p = Piece.BTiger ∨ p = Piece.BLion) :
    ∃ moves, b.MoveList R = some moves ∧
      ((∃ q ∈ path, b.Get q ≠ some Piece.Empty) → (o, d) ∉ moves) ∧
      (R.CanJump p = true → (∀ q ∈ path, b.Get q = some Piece.Empty) →
        ((o, d) ∈ moves ↔
          ¬ (p.Side = Side.A ∧ d = ADen) ∧ ¬ (p.Side = Side.B ∧ d = BDen) ∧
            ∃ t, b.Get d = some t ∧ R.CanTake p (R.MaybeApplyTrap t d) = true)) ∧
      (∀ b2 : Board, b2.Get o = some p → b2.Get d = b.Get d →
        (∀ q ∈ path, b.Get q = some Piece.Empty) → (∀ q ∈ path, b2.Get q = some Piece.Empty) →
          ∃ moves2, b2.MoveList R = some moves2 ∧ ((o, d) ∈ moves2 ↔ (o, d) ∈ moves)) := by
  have hjc : isJumpCase p = true := (isJumpCase_iff p).2 hcase
  have hmem := lookup_mem _ path jumpPath hkey
  have hlisted : d ∈ lookupAdj jumpingAdjacency o := jumpPath_dest_listed _ hmem
  have hdr : InRange d := lookupAdj_inRange _ jumpingAdjacency_inRange o d hlisted
  have hne : p ≠ Piece.Empty := by
    rcases hcase with h | h | h | h <;> subst h <;> decide
  refine ⟨moveSet R b, MoveList_eq R b, ?_, ?_, ?_⟩
  · intro hocc hm
    have hb := blocked_of_occupied b o d p path hkey hjc hocc
    have := ((mem_moveSet_of_Get R b o d p hp).1 hm).2.2.2.1
    rw [hb] at this
    exact Bool.noConfusion this
  · intro hj hclear
    have hb := not_blocked_of_clear b o d p path hkey hclear
    have hsel : selectAdjacency R p = jumpingAdjacency := by simp [selectAdjacency, hj]
    rw [mem_moveSet_of_Get R b o d p hp, hsel, ownDen_eq_false, Get_of_inRange b d hdr]
    constructor
    · rintro ⟨-, -, hden, -, hc⟩
      exact ⟨hden.1, hden.2, _, rfl, hc⟩
    · rintro ⟨h1, h2, t, ht, hc⟩
      simp only [Option.some.injEq] at ht
      subst ht
      exact ⟨hne, hlisted, ⟨h1, h2⟩, hb, hc⟩
  · intro b2 hp2 hd2 hclear hclear2
    refine ⟨moveSet R b2, MoveList_eq R b2, ?_⟩
    have hb := not_blocked_of_clear b o d p path hkey hclear
    have hb2 := not_blocked_of_clear b2 o d p path hkey hclear2
    have hocc : b2.occ d = b.occ d := by
      unfold Board.occ
      rw [hd2]
    rw [mem_moveSet_of_Get R b o d p hp, mem_moveSet_of_Get R b2 o d p hp2, hb, hb2, hocc]

/-- C4, at a concrete input: the tiger on `(1,2)` cannot jump to `(1,6)` while the mouse sits on
`(1,4)`, and can (capturing the cat) once the lane is clear. -/
theorem jump_blocking_witness :
    jumpPath.lookup ((1, 2), (1, 6)) = some [(1, 3), (1, 4), (1, 5)] ∧
      blockedLane.Get (1, 2) = some Piece.ATiger ∧ clearLane.Get (1, 2) = some Piece.ATiger ∧
      (∃ moves, blockedLane.MoveList stdRules = some moves ∧ ((1, 2), (1, 6)) ∉ moves) ∧
      (∃ moves, clearLane.MoveList stdRules = some moves ∧ ((1, 2), (1, 6)) ∈ moves) := by
  refine ⟨by decide, by decide, by decide, ?_, ?_⟩
  · obtain ⟨moves, hm, h1, -, -⟩ := jump_blocking stdRules blockedLane (1, 2) (1, 6)
      [(1, 3), (1, 4), (1, 5)] Piece.ATiger (by decide) (by decide) (by decide)
    exact ⟨moves, hm, h1 ⟨(1, 4), by decide, by decide⟩⟩
  · obtain ⟨moves, hm, -, h2, -⟩ := jump_blocking stdRules clearLane (1, 2) (1, 6)
      [(1, 3), (1, 4), (1, 5)] Piece.ATiger (by decide) (by decide) (by decide)
    exact ⟨moves, hm, (h2 (by decide) (by decide)).2
      ⟨by decide, by decide, Piece.BCat, by decide, by decide⟩⟩

/-- C5, as stated, fails: with the capture predicate of the spec, which makes no side test,
`MoveList` on `lionCorner` lists the side-A lion's move from `(0,0)` onto the side-A mouse on
`(1,0)`. -/
theorem same_side_counterexample :
    lionCorner.Get (0, 0) = some Piece.ALion ∧ lionCorner.Get (1, 0) = some Piece.AMouse ∧
      Piece.AMouse ≠ Piece.Empty ∧ Piece.AMouse.Side = Piece.ALion.Side ∧
      lionCorner.MoveList stdRules =
        some [((0, 0), (1, 0)), ((0, 0), (0, 1)), ((1, 0), (2, 0)), ((1, 0), (1, 1))] := by
  decide

/-- C5, amended: `MoveList` returns, and for every move `(o,d)` of the list, with `p` on `o` and
`t` on `d`, the capture test `CanTake(p, MaybeApplyTrap(t, d))` passed, whatever the piece methods
are. The generator makes no side test of its own: when the capture predicate refuses every
trap-transformed non-empty defender of the attacker's side, no generated move lands on a piece of
the mover's side. -/
theorem same_side_exclusion_by_capture (R : Rules) (b : Board) :
    ∃ moves, b.MoveList R = some moves ∧
      (∀ o d, (o, d) ∈ moves →
        ∃ p t, b.Get o = some p ∧ b.Get d = some t ∧
          R.CanTake p (R.MaybeApplyTrap t d) = true) ∧
      ((∀ (p t : Piece) (pt : Point), t ≠ Piece.Empty → t.Side = p.Side →
          R.CanTake p (R.MaybeApplyTrap t pt) = false) →
        ∀ o d, (o, d) ∈ moves →
          ∃ p t, b.Get o = some p ∧ b.Get d = some t ∧
            ¬ (t ≠ Piece.Empty ∧ t.Side = p.Side)) := by
  have key : ∀ o d, (o, d) ∈ moveSet R b →
      b.Get o = some (b.occ o) ∧ b.Get d = some (b.occ d) ∧
        R.CanTake (b.occ o) (R.MaybeApplyTrap (b.occ d) d) = true := by
    intro o d hm
    have hgo := Get_of_inRange b o (moveSet_origin_inRange R b _ hm)
    have hgd := Get_of_inRange b d (moveSet_dest_inRange R b _ hm)
    exact ⟨hgo, hgd, ((mem_moveSet_of_Get R b o d _ hgo).1 hm).2.2.2.2⟩
  refine ⟨moveSet R b, MoveList_eq R b, ?_, ?_⟩
  · intro o d hm
    exact ⟨b.occ o, b.occ d, key o d hm⟩
  · intro hR o d hm
    obtain ⟨hgo, hgd, hc⟩ := key o d hm
    refine ⟨b.occ o, b.occ d, hgo, hgd, ?_⟩
    rintro ⟨hne, hs⟩
    rw [hR _ _ d hne hs] at hc
    exact Bool.noConfusion hc

theorem sideAwareRules_refuses (p t : Piece) (pt : Point) (_hne : t ≠ Piece.Empty)
    (hs : t.Side = p.Side) :
    sideAwareRules.CanTake p (sideAwareRules.MaybeApplyTrap t pt) = false := by
  have hside : (stdMaybeApplyTrap t pt).Side = t.Side := by
    unfold stdMaybeApplyTrap
    split_ifs with h1 h2
    · rw [h1.1]; rfl
    · rw [h2.1]; rfl
    · rfl
  show sideAwareCanTake p (stdMaybeApplyTrap t pt) = false
  unfold sideAwareCanTake
  simp [hside, hs]

/-- C5 amended, at concrete inputs: under `stdRules` the lion's move of `lionCorner` onto the
mouse of its own side is generated and passed the capture test; with a capture predicate that
refuses defenders of the attacker's side the move is not generated and no generated move lands on
a piece of the mover's side. -/
theorem same_side_exclusion_by_capture_witness :
    (∃ moves, lionCorner.MoveList stdRules = some moves ∧ ((0, 0), (1, 0)) ∈ moves ∧
      stdRules.CanTake Piece.ALion (stdRules.MaybeApplyTrap Piece.AMouse (1, 0)) = true) ∧
    lionCorner.MoveList sideAwareRules =
        some [((0, 0), (0, 1)), ((1, 0), (2, 0)), ((1, 0), (1, 1))] ∧
      ∃ moves, lionCorner.MoveList sideAwareRules = some moves ∧
        ∀ o d, (o, d) ∈ moves →
          ∃ p t, lionCorner.Get o = some p ∧ lionCorner.Get d = some t ∧
            ¬ (t ≠ Piece.Empty ∧ t.Side = p.Side) := by
  refine ⟨?_, by decide, ?_⟩
  · obtain ⟨moves, hm, h1, -⟩ := same_side_exclusion_by_capture stdRules lionCorner
    have hl : lionCorner.MoveList stdRules =
        some [((0, 0), (1, 0)), ((0, 0), (0, 1)), ((1, 0), (2, 0)), ((1, 0), (1, 1))] := by
      decide
    have hmem : ((0, 0), (1, 0)) ∈ moves := by
      rw [hl] at hm
      simp only [Option.some.injEq] at hm
      subst hm
      decide
    obtain ⟨p, t, hp, ht, hc⟩ := h1 (0, 0) (1, 0) hmem
    obtain rfl : Piece.ALion = p := Option.some.inj hp
    obtain rfl : Piece.AMouse = t := Option.some.inj ht
    exact ⟨moves, hm, hmem, hc⟩
  · obtain ⟨moves, hm, -, h2⟩ := same_side_exclusion_by_capture sideAwareRules lionCorner
    exact ⟨moves, hm, h2 sideAwareRules_refuses⟩

/-- The generator asks the capture predicate about an `Empty` destination as about any other:
for a listed, `Empty`, non-den, unblocked destination the move is generated exactly when
`CanTake(p, MaybeApplyTrap(Empty, d))` holds. -/
theorem empty_destination_iff_capture (R : Rules) (b : Board) (o d : Point) (p : Piece)
    (hp : b.Get o = some p) (hne : p ≠ Piece.Empty)
    (hadj : d ∈ lookupAdj (selectAdjacency R p) o) (hd : b.Get d = some Piece.Empty)
    (hden : ¬ (p.Side = Side.A ∧ d = ADen) ∧ ¬ (p.Side = Side.B ∧ d = BDen))
    (hjump : jumpBlocked b o p d = some false) :
    (o, d) ∈ moveSet R b ↔ R.CanTake p (R.MaybeApplyTrap Piece.Empty d) = true := by
  have hb : blocked b o p d = false := by
    rw [jumpBlocked_eq] at hjump
    simpa using hjump.symm
  have hocc : b.occ d = Piece.Empty := (Get_eq_some b d _ hd).2
  rw [mem_moveSet_of_Get R b o d p hp, hocc]
  constructor
  · exact fun h => h.2.2.2.2
  · exact fun h => ⟨hne, hadj, (ownDen_eq_false p d).2 hden, hb, h⟩

theorem stdRules_takes_empty (p : Piece) (d : Point) :
    stdRules.CanTake p (stdRules.MaybeApplyTrap Piece.Empty d) = true := by
  have hE : stdMaybeApplyTrap Piece.Empty d = Piece.Empty := by
    simp [stdMaybeApplyTrap, Piece.Side]
  show stdCanTake p (stdMaybeApplyTrap Piece.Empty d) = true
  rw [hE]
  simp [stdCanTake, Piece.rank]

/-- C6: Empty destinations are always allowed, with the capture predicate and the trap transform
of the spec (`stdRules`). For every board, every non-empty piece `p` on `o` and every destination
`d` listed for `o` in the table selected for `p`: if `d` is `Empty`, is not the own den of `p`
and is not rejected by the jump-blocking rule, then `(o,d)` is in the move list; the capture test
on the `Empty` occupant passes for every attacker and every square. -/
theorem empty_destination_allowed (b : Board) (o d : Point) (p : Piece)
    (hp : b.Get o = some p) (hne : p ≠ Piece.Empty)
    (hadj : d ∈ lookupAdj (selectAdjacency stdRules p) o) (hd : b.Get d = some Piece.Empty)
    (hden : ¬ (p.Side = Side.A ∧ d = ADen) ∧ ¬ (p.Side = Side.B ∧ d = BDen))
    (hjump : jumpBlocked b o p d = some false) :
    (∀ (attacker : Piece) (pt : Point),
      stdRules.CanTake attacker (stdRules.MaybeApplyTrap Piece.Empty pt) = true) ∧
    ∃ moves, b.MoveList stdRules = some moves ∧ (o, d) ∈ moves :=
  ⟨stdRules_takes_empty, moveSet stdRules b, MoveList_eq stdRules b,
    (empty_destination_iff_capture stdRules b o d p hp hne hadj hd hden hjump).2
      (stdRules_takes_empty p d)⟩

/-- C6, at a concrete input: the lion of `lionCorner` on `(0,0)` may step onto the `Empty`
square `(0,1)`. -/
theorem empty_destination_allowed_witness :
    lionCorner.Get (0, 0) = some Piece.ALion ∧
      (0, 1) ∈ lookupAdj (selectAdjacency stdRules Piece.ALion) (0, 0) ∧
      lionCorner.Get (0, 1) = some Piece.Empty ∧
      jumpBlocked lionCorner (0, 0) Piece.ALion (0, 1) = some false ∧
      ∃ moves, lionCorner.MoveList stdRules = some moves ∧ ((0, 0), (0, 1)) ∈ moves :=
  ⟨by decide, by decide, by decide, by decide,
    (empty_destination_allowed lionCorner (0, 0) (0, 1) Piece.ALion (by decide) (by decide)
      (by decide) (by decide) (by decide) (by decide)).2⟩

theorem normalAdjacency_no_river :
    ∀ e ∈ normalAdjacency, (∀ q ∈ e.2, isRiver q = false) ∧ (isRiver e.1 = true → e.2 = []) := by
  decide

theorem jumpingAdjacency_no_river :
    ∀ e ∈ jumpingAdjacency, (∀ q ∈ e.2, isRiver q = false) ∧ (isRiver e.1 = true → e.2 = []) := by
  decide

theorem lookupAdj_no_river (adjacency : List (Point × List Point))
    (h : ∀ e ∈ adjacency, (∀ q ∈ e.2, isRiver q = false) ∧ (isRiver e.1 = true → e.2 = []))
    (frm d : Point) (hd : d ∈ lookupAdj adjacency frm) : isRiver d = false := by
  unfold lookupAdj at hd
  cases hl : adjacency.lookup frm with
  | none => simp [hl] at hd
  | some l =>
    simp only [hl, Option.getD_some] at hd
    exact (h _ (lookup_mem frm l adjacency hl)).1 d hd

theorem lookupAdj_river_empty (adjacency : List (Point × List Point))
    (h : ∀ e ∈ adjacency, (∀ q ∈ e.2, isRiver q = false) ∧ (isRiver e.1 = true → e.2 = []))
    (r : Point) (hr : isRiver r = true) : lookupAdj adjacency r = [] := by
  unfold lookupAdj
  cases hl : adjacency.lookup r with
  | none => rfl
  | some l =>
    simp only [Option.getD_some]
    exact (h _ (lookup_mem r l adjacency hl)).2 hr

theorem river_has_entry (r : Point) (hr : isRiver r = true) :
    (normalAdjacency.lookup r).isSome = true ∧ (jumpingAdjacency.lookup r).isSome = true := by
  obtain ⟨x, y⟩ := r
  simp only [isRiver, Bool.and_eq_true, Bool.or_eq_true, decide_eq_true_eq] at hr
  obtain ⟨hx, hy⟩ := hr
  rcases hx with ((rfl | rfl) | rfl) | rfl <;> rcases hy with (rfl | rfl) | rfl <;> decide

/-- C7: River entry. `MoveList` returns, and for every move `(o,d)` of the list whose destination
is a river square the mover satisfies `CanSwim` and does not satisfy `CanJump`. Neither
`normalAdjacency` nor `jumpingAdjacency` lists a river square as a destination, and both have an
entry for every river square, with the empty list. -/
theorem river_entry (R : Rules) (b : Board) :
    (∃ moves, b.MoveList R = some moves ∧
      ∀ o d, (o, d) ∈ moves → isRiver d = true →
        ∃ p, b.Get o = some p ∧ R.CanSwim p = true ∧ R.CanJump p = false) ∧
    (∀ frm d, d ∈ lookupAdj normalAdjacency frm → isRiver d = false) ∧
    (∀ frm d, d ∈ lookupAdj jumpingAdjacency frm → isRiver d = false) ∧
    (∀ r, isRiver r = true →
      normalAdjacency.lookup r = some [] ∧ jumpingAdjacency.lookup r = some []) := by
  refine ⟨⟨moveSet R b, MoveList_eq R b, ?_⟩, ?_, ?_, ?_⟩
  · intro o d hm hriv
    have hgo := Get_of_inRange b o (moveSet_origin_inRange R b _ hm)
    have hadj := ((mem_moveSet_of_Get R b o d _ hgo).1 hm).2.1
    refine ⟨b.occ o, hgo, ?_⟩
    unfold selectAdjacency at hadj
    by_cases hj : R.CanJump (b.occ o) = true
    · rw [if_pos hj] at hadj
      have := lookupAdj_no_river _ jumpingAdjacency_no_river o d hadj
      rw [hriv] at this
      exact Bool.noConfusion this
    · rw [if_neg hj] at hadj
      by_cases hs : R.CanSwim (b.occ o) = true
      · exact ⟨hs, by simpa using hj⟩
      · rw [if_neg hs] at hadj
        have := lookupAdj_no_river _ normalAdjacency_no_river o d hadj
        rw [hriv] at this
        exact Bool.noConfusion this
  · exact lookupAdj_no_river _ normalAdjacency_no_river
  · exact lookupAdj_no_river _ jumpingAdjacency_no_river
  · intro r hr
    have he := river_has_entry r hr
    have hn := lookupAdj_river_empty _ normalAdjacency_no_river r hr
    have hj := lookupAdj_river_empty _ jumpingAdjacency_no_river r hr
    unfold lookupAdj at hn hj
    constructor
    · cases hl : normalAdjacency.lookup r with
      | none => rw [hl] at he; exact absurd he.1 (by simp)
      | some l => rw [hl] at hn; simpa using hn
    · cases hl : jumpingAdjacency.lookup r with
      | none => rw [hl] at he; exact absurd he.2 (by simp)
      | some l => rw [hl] at hj; simpa using hj

/-- C7, at a concrete input: the side-B mouse on the bank `(1,6)` is the mover of a generated
move into the river square `(1,5)`; it swims and does not jump. -/
theorem river_entry_witness :
    mouseBank.MoveList stdRules =
        some [((1, 6), (1, 5)), ((1, 6), (0, 6)), ((1, 6), (2, 6)), ((1, 6), (1, 7))] ∧
      isRiver (1, 5) = true ∧
      ∃ p, mouseBank.Get (1, 6) = some p ∧ stdRules.CanSwim p = true ∧
        stdRules.CanJump p = false := by
  refine ⟨by decide, by decide, ?_⟩
  obtain ⟨moves, hm, h⟩ := (river_entry stdRules mouseBank).1
  have hl : mouseBank.MoveList stdRules =
      some [((1, 6), (1, 5)), ((1, 6), (0, 6)), ((1, 6), (2, 6)), ((1, 6), (1, 7))] := by decide
  rw [hl] at hm
  simp only [Option.some.injEq] at hm
  subst hm
  exact h (1, 6) (1, 5) (by decide) (by decide)

/-! ## Terminal-state detection -/

theorem countNotA_eq_zero (R : Rules) (b : Board) (moves : List PointPair)
    (hm : b.MoveList R = some moves)
    (hBnone : ∀ o d p, (o, d) ∈ moves → b.Get o = some p → p.Side ≠ Side.B) :
    countNotA b (moveSet R b) = 0 := by
  rw [MoveList_eq] at hm
  simp only [Option.some.injEq] at hm
  subst hm
  unfold countNotA
  rw [List.countP_eq_zero]
  rintro ⟨o, d⟩ hmem
  have hg := Get_of_inRange b o (moveSet_origin_inRange R b _ hmem)
  have hne := ((mem_moveSet_of_Get R b o d _ hg).1 hmem).1
  have hB := hBnone o d _ hmem hg
  rcases side_cases _ hne with h | h
  · simp [h]
  · exact absurd h hB

theorem countA_eq_zero (R : Rules) (b : Board) (moves : List PointPair)
    (hm : b.MoveList R = some moves)
    (hAnone : ∀ o d p, (o, d) ∈ moves → b.Get o = some p → p.Side ≠ Side.A) :
    countA b (moveSet R b) = 0 := by
  rw [MoveList_eq] at hm
  simp only [Option.some.injEq] at hm
  subst hm
  unfold countA
  rw [List.countP_eq_zero]
  rintro ⟨o, d⟩ hmem
  have hg := Get_of_inRange b o (moveSet_origin_inRange R b _ hmem)
  simpa using hAnone o d _ hmem hg

theorem countA_ne_zero (R : Rules) (b : Board) (moves : List PointPair)
    (hm : b.MoveList R = some moves)
    (hAmove : ∃ o d p, (o, d) ∈ moves ∧ b.Get o = some p ∧ p.Side = Side.A) :
    countA b (moveSet R b) ≠ 0 := by
  rw [MoveList_eq] at hm
  simp only [Option.some.injEq] at hm
  subst hm
  obtain ⟨o, d, p, hmem, hg, hs⟩ := hAmove
  have hocc := (Get_eq_some b o p hg).2
  unfold countA
  intro h0
  rw [List.countP_eq_zero] at h0
  have := h0 (o, d) hmem
  simp [hocc, hs] at this

/-- C8: Den-win evaluation order in `Winner`. Both dens are read; if the occupant of `BDen` has
side A, `Winner` returns `A`, whatever stands on `ADen` and whatever the move list is; otherwise,
if the occupant of `ADen` has side B, `Winner` returns `B`, whatever the move list is. -/
theorem den_win_order (R : Rules) (b : Board) :
    ∃ onBDen onADen, b.Get BDen = some onBDen ∧ b.Get ADen = some onADen ∧
      (onBDen.Side = Side.A → b.Winner R = some Side.A) ∧
      (onBDen.Side ≠ Side.A → onADen.Side = Side.B → b.Winner R = some Side.B) := by
  refine ⟨b.occ BDen, b.occ ADen, Get_of_inRange b BDen BDen_inRange,
    Get_of_inRange b ADen ADen_inRange, ?_, ?_⟩
  · intro h
    rw [Winner_eq, if_pos h]
  · intro h1 h2
    rw [Winner_eq, if_neg h1, if_pos h2]

/-- C8, at concrete inputs: on `denRaid` a side-A mouse stands on `BDen` while a side-B cat
stands on `ADen` and side B has no move (every origin of the list holds a side-A piece): the
winner is `A`. On `denRaidB`, without the mouse, the winner is `B` although side B has no move
and side A has seven. -/
theorem den_win_order_witness :
    denRaid.Get BDen = some Piece.AMouse ∧ denRaid.Get ADen = some Piece.BCat ∧
      denRaid.MoveList stdRules =
        some [((2, 0), (1, 0)), ((2, 0), (2, 1)), ((3, 1), (2, 1)), ((3, 1), (4, 1)),
          ((3, 1), (3, 2)), ((3, 8), (3, 7)), ((3, 8), (2, 8)), ((3, 8), (4, 8)),
          ((4, 0), (5, 0)), ((4, 0), (4, 1))] ∧
      denRaid.Winner stdRules = some Side.A ∧
      denRaidB.Get BDen = some Piece.Empty ∧ denRaidB.Get ADen = some Piece.BCat ∧
      denRaidB.MoveList stdRules =
        some [((2, 0), (1, 0)), ((2, 0), (2, 1)), ((3, 1), (2, 1)), ((3, 1), (4, 1)),
          ((3, 1), (3, 2)), ((4, 0), (5, 0)), ((4, 0), (4, 1))] ∧
      denRaidB.Winner stdRules = some Side.B := by
  refine ⟨by decide, by decide, by decide, ?_, by decide, by decide, by decide, ?_⟩
  · obtain ⟨onBDen, onADen, hB, -, h1, -⟩ := den_win_order stdRules denRaid
    obtain rfl : Piece.AMouse = onBDen := Option.some.inj hB
    exact h1 (by decide)
  · obtain ⟨onBDen, onADen, hB, hA, -, h2⟩ := den_win_order stdRules denRaidB
    obtain rfl : Piece.Empty = onBDen := Option.some.inj hB
    obtain rfl : Piece.BCat = onADen := Option.some.inj hA
    exact h2 (by decide) (by decide)

/-- C9: Stalemate-as-loss. On a board where `BDen` does not hold a side-A piece and `ADen` does
not hold a side-B piece, if `MoveList` contains a move whose mover has side A and no move whose
mover has side B, then `Winner` returns `A`. -/
theorem stalemate_as_loss (R : Rules) (b : Board) (onBDen onADen : Piece)
    (moves : List PointPair)
    (hB : b.Get BDen = some onBDen) (hnB : onBDen.Side ≠ Side.A)
    (hA : b.Get ADen = some onADen) (hnA : onADen.Side ≠ Side.B)
    (hm : b.MoveList R = some moves)
    (hAmove : ∃ o d p, (o, d) ∈ moves ∧ b.Get o = some p ∧ p.Side = Side.A)
    (hBnone : ∀ o d p, (o, d) ∈ moves → b.Get o = some p → p.Side ≠ Side.B) :
    b.Winner R = some Side.A := by
  have e1 := (Get_eq_some b BDen _ hB).2
  have e2 := (Get_eq_some b ADen _ hA).2
  rw [Winner_eq, e1, e2, if_neg hnB, if_neg hnA,
    if_neg (countA_ne_zero R b moves hm hAmove), if_pos (countNotA_eq_zero R b moves hm hBnone)]

theorem boxedIn_moves :
    boxedIn.MoveList stdRules =
      some [((0, 1), (0, 0)), ((0, 1), (1, 1)), ((0, 1), (0, 2)), ((1, 0), (0, 0)),
        ((1, 0), (2, 0)), ((1, 0), (1, 1))] := by
  decide

theorem boxedIn_movers (o d : Point) (p : Piece)
    (hmem : (o, d) ∈ [(((0, 1), (0, 0)) : PointPair), ((0, 1), (1, 1)), ((0, 1), (0, 2)),
      ((1, 0), (0, 0)), ((1, 0), (2, 0)), ((1, 0), (1, 1))])
    (hg : boxedIn.Get o = some p) : p = Piece.ADog := by
  simp only [List.mem_cons, Prod.mk.injEq, List.mem_singleton, List.not_mem_nil, or_false]
    at hmem
  rcases hmem with ⟨rfl, -⟩ | ⟨rfl, -⟩ | ⟨rfl, -⟩ | ⟨rfl, -⟩ | ⟨rfl, -⟩ | ⟨rfl, -⟩ <;>
    exact (Option.some.inj hg).symm

/-- C9, at a concrete input: on `boxedIn` the cat of side B cannot move, the dogs of side A can,
both dens are `Empty`, and the winner is `A`. -/
theorem stalemate_as_loss_witness :
    boxedIn.Get BDen = some Piece.Empty ∧ boxedIn.Get ADen = some Piece.Empty ∧
      boxedIn.Get (0, 0) = some Piece.BCat ∧
      boxedIn.MoveList stdRules =
        some [((0, 1), (0, 0)), ((0, 1), (1, 1)), ((0, 1), (0, 2)), ((1, 0), (0, 0)),
          ((1, 0), (2, 0)), ((1, 0), (1, 1))] ∧
      boxedIn.Winner stdRules = some Side.A :=
  ⟨by decide, by decide, by decide, boxedIn_moves,
    stalemate_as_loss stdRules boxedIn Piece.Empty Piece.Empty _ (by decide) (by decide)
      (by decide) (by decide) boxedIn_moves
      ⟨(0, 1), (0, 0), Piece.ADog, by decide, by decide, by decide⟩
      (fun o d p hmem hg => by rw [boxedIn_movers o d p hmem hg]; decide)⟩

/-- C10, as stated, fails when neither side has a move: on the empty board no den rule applies,
side B has zero moves, and `Winner` returns `B`, not `A`. -/
theorem zero_moves_counterexample :
    EmptyBoard.Get BDen = some Piece.Empty ∧ EmptyBoard.Get ADen = some Piece.Empty ∧
      EmptyBoard.MoveList stdRules = some [] ∧ EmptyBoard.Winner stdRules = some Side.B := by
  decide

/-- C10, amended: on a board where neither den rule applies, if side A has no move in `MoveList`
then `Winner` returns `B`; and if side B has no move while side A has at least one, then `Winner`
returns `A`. -/
theorem zero_moves_rule (R : Rules) (b : Board) (onBDen onADen : Piece)
    (moves : List PointPair)
    (hB : b.Get BDen = some onBDen) (hnB : onBDen.Side ≠ Side.A)
    (hA : b.Get ADen = some onADen) (hnA : onADen.Side ≠ Side.B)
    (hm : b.MoveList R = some moves) :
    ((∀ o d p, (o, d) ∈ moves → b.Get o = some p → p.Side ≠ Side.A) →
      b.Winner R = some Side.B) ∧
    ((∀ o d p, (o, d) ∈ moves → b.Get o = some p → p.Side ≠ Side.B) →
      (∃ o d p, (o, d) ∈ moves ∧ b.Get o = some p ∧ p.Side = Side.A) →
      b.Winner R = some Side.A) := by
  have e1 := (Get_eq_some b BDen _ hB).2
  have e2 := (Get_eq_some b ADen _ hA).2
  constructor
  · intro hAnone
    rw [Winner_eq, e1, e2, if_neg hnB, if_neg hnA, if_pos (countA_eq_zero R b moves hm hAnone)]
  · intro hBnone hAmove
    rw [Winner_eq, e1, e2, if_neg hnB, if_neg hnA,
      if_neg (countA_ne_zero R b moves hm hAmove),
      if_pos (countNotA_eq_zero R b moves hm hBnone)]

theorem boxedInA_moves :
    boxedInA.MoveList stdRules =
      some [((0, 1), (0, 0)), ((0, 1), (1, 1)), ((0, 1), (0, 2)), ((1, 0), (0, 0)),
        ((1, 0), (2, 0)), ((1, 0), (1, 1))] := by
  decide

theorem boxedInA_movers (o d : Point) (p : Piece)
    (hmem : (o, d) ∈ [(((0, 1), (0, 0)) : PointPair), ((0, 1), (1, 1)), ((0, 1), (0, 2)),
      ((1, 0), (0, 0)), ((1, 0), (2, 0)), ((1, 0), (1, 1))])
    (hg : boxedInA.Get o = some p) : p = Piece.BDog := by
  simp only [List.mem_cons, Prod.mk.injEq, List.mem_singleton, List.not_mem_nil, or_false]
    at hmem
  rcases hmem with ⟨rfl, -⟩ | ⟨rfl, -⟩ | ⟨rfl, -⟩ | ⟨rfl, -⟩ | ⟨rfl, -⟩ | ⟨rfl, -⟩ <;>
    exact (Option.some.inj hg).symm

/-- C10 amended, at a concrete input: on `boxedInA` the cat of side A cannot move, the dogs of
side B can, both dens are `Empty`, and the winner is `B`. -/
theorem zero_moves_rule_witness :
    boxedInA.Get BDen = some Piece.Empty ∧ boxedInA.Get ADen = some Piece.Empty ∧
      boxedInA.Get (0, 0) = some Piece.ACat ∧
      boxedInA.MoveList stdRules =
        some [((0, 1), (0, 0)), ((0, 1), (1, 1)), ((0, 1), (0, 2)), ((1, 0), (0, 0)),
          ((1, 0), (2, 0)), ((1, 0), (1, 1))] ∧
      boxedInA.Winner stdRules = some Side.B :=
  ⟨by decide, by decide, by decide, boxedInA_moves,
    (zero_moves_rule stdRules boxedInA Piece.Empty Piece.Empty _ (by decide) (by decide)
      (by decide) (by decide) boxedInA_moves).1
      (fun o d p hmem hg => by rw [boxedInA_movers o d p hmem hg]; decide)⟩

/-! ## No-decision, reference characterisation -/

theorem countNotA_ne_zero_iff (R : Rules) (b : Board) :
    countNotA b (moveSet R b) ≠ 0 ↔
      ∃ o d p, (o, d) ∈ moveSet R b ∧ b.Get o = some p ∧ p.Side = Side.B := by
  unfold countNotA
  rw [Ne, List.countP_eq_zero]
  constructor
  · intro h
    by_contra hn
    apply h
    rintro ⟨o, d⟩ hmem
    have hg := Get_of_inRange b o (moveSet_origin_inRange R b _ hmem)
    have hne := ((mem_moveSet_of_Get R b o d _ hg).1 hmem).1
    rcases side_cases _ hne with hs | hs
    · simp [hs]
    · exact absurd ⟨o, d, _, hmem, hg, hs⟩ hn
  · rintro ⟨o, d, p, hmem, hg, hs⟩ h
    have hocc := (Get_eq_some b o p hg).2
    have := h (o, d) hmem
    simp [hocc, hs] at this

theorem countA_ne_zero_iff (R : Rules) (b : Board) :
    countA b (moveSet R b) ≠ 0 ↔
      ∃ o d p, (o, d) ∈ moveSet R b ∧ b.Get o = some p ∧ p.Side = Side.A := by
  constructor
  · intro h
    by_contra hn
    apply h
    unfold countA
    rw [List.countP_eq_zero]
    rintro ⟨o, d⟩ hmem
    have hg := Get_of_inRange b o (moveSet_origin_inRange R b _ hmem)
    intro hs
    exact hn ⟨o, d, _, hmem, hg, by simpa using hs⟩
  · exact fun h => countA_ne_zero R b _ (MoveList_eq R b) h

/-- C11: No-decision characterisation. `Winner` reads both dens and the move list, and returns
`None` exactly when `BDen` does not hold a side-A piece, `ADen` does not hold a side-B piece, and
the move list contains a move made by a side-A piece and a move made by a side-B piece. Every
generated move has a mover of side A or of side B, never both. -/
theorem no_decision_iff (R : Rules) (b : Board) :
    ∃ onBDen onADen moves, b.Get BDen = some onBDen ∧ b.Get ADen = some onADen ∧
      b.MoveList R = some moves ∧
      (b.Winner R = some Side.None ↔
        onBDen.Side ≠ Side.A ∧ onADen.Side ≠ Side.B ∧
          (∃ o d p, (o, d) ∈ moves ∧ b.Get o = some p ∧ p.Side = Side.A) ∧
          (∃ o d p, (o, d) ∈ moves ∧ b.Get o = some p ∧ p.Side = Side.B)) ∧
      (∀ o d, (o, d) ∈ moves → ∃ p, b.Get o = some p ∧
        ((p.Side = Side.A ∧ p.Side ≠ Side.B) ∨ (p.Side = Side.B ∧ p.Side ≠ Side.A))) := by
  refine ⟨b.occ BDen, b.occ ADen, moveSet R b, Get_of_inRange b BDen BDen_inRange,
    Get_of_inRange b ADen ADen_inRange, MoveList_eq R b, ?_, ?_⟩
  · rw [Winner_eq, ← countA_ne_zero_iff, ← countNotA_ne_zero_iff]
    split_ifs <;> simp_all
  · intro o d hmem
    have hg := Get_of_inRange b o (moveSet_origin_inRange R b _ hmem)
    have hne := ((mem_moveSet_of_Get R b o d _ hg).1 hmem).1
    refine ⟨_, hg, ?_⟩
    rcases side_cases _ hne with hs | hs
    · exact Or.inl ⟨hs, by simp [hs]⟩
    · exact Or.inr ⟨hs, by simp [hs]⟩

/-- C11, at concrete inputs: on the starting layout both sides have moves and no den is taken,
so there is no decision; on `boxedIn` side B has no move and the winner is `A`, not `None`. -/
theorem no_decision_iff_witness :
    NewBoard.Winner stdRules = some Side.None ∧ boxedIn.Winner stdRules = some Side.A ∧
      ∃ onBDen onADen moves, NewBoard.Get BDen = some onBDen ∧ NewBoard.Get ADen = some onADen ∧
        NewBoard.MoveList stdRules = some moves ∧
        (NewBoard.Winner stdRules = some Side.None ↔
          onBDen.Side ≠ Side.A ∧ onADen.Side ≠ Side.B ∧
            (∃ o d p, (o, d) ∈ moves ∧ NewBoard.Get o = some p ∧ p.Side = Side.A) ∧
            (∃ o d p, (o, d) ∈ moves ∧ NewBoard.Get o = some p ∧ p.Side = Side.B)) ∧
        (∀ o d, (o, d) ∈ moves → ∃ p, NewBoard.Get o = some p ∧
          ((p.Side = Side.A ∧ p.Side ≠ Side.B) ∨ (p.Side = Side.B ∧ p.Side ≠ Side.A))) :=
  ⟨by decide, by decide, no_decision_iff stdRules NewBoard⟩

/-- C15: Reference characterisation of `MoveList`, the piece methods taken as given. For all
in-range points `o`, `d`, with `p` the piece on `o` and `t` the piece on `d`, the pair `(o,d)` is
in the move list exactly when (1) `p` is not `Empty`; (2) `d` is listed for `o` in the table
selected by `p`; (3) `d` is not the own den of `p`; (4) it is not the case that `p` is one of
`ATiger`, `ALion`, `BTiger`, `BLion`, `(o,d)` is a key of `jumpPath` and some square of its path
is not `Empty`; (5) `CanTake(p, MaybeApplyTrap(t, d))` holds. The generator takes no turn or side
argument: the one list holds the moves of both sides. -/
theorem moveList_characterisation (R : Rules) (b : Board) (o d : Point)
    (ho : InRange o) (hd : InRange d) :
    ∃ moves p t, b.MoveList R = some moves ∧ b.Get o = some p ∧ b.Get d = some t ∧
      ((o, d) ∈ moves ↔
        p ≠ Piece.Empty ∧
        d ∈ lookupAdj
          (if R.CanJump p then jumpingAdjacency
            else if R.CanSwim p then swimmingAdjacency else normalAdjacency) o ∧
        ¬ ((p.Side = Side.A ∧ d = ADen) ∨ (p.Side = Side.B ∧ d = BDen)) ∧
        ¬ ((p = Piece.ATiger ∨ p = Piece.ALion ∨ p = Piece.BTiger ∨ p = Piece.BLion) ∧
            ∃ path, jumpPath.lookup (o, d) = some path ∧
              ∃ q ∈ path, b.Get q ≠ some Piece.Empty) ∧
        R.CanTake p (R.MaybeApplyTrap t d) = true) := by
  have hgo := Get_of_inRange b o ho
  refine ⟨moveSet R b, b.occ o, b.occ d, MoveList_eq R b, hgo, Get_of_inRange b d hd, ?_⟩
  rw [mem_moveSet_of_Get R b o d _ hgo]
  have hden : ownDen (b.occ o) d = false ↔
      ¬ (((b.occ o).Side = Side.A ∧ d = ADen) ∨ ((b.occ o).Side = Side.B ∧ d = BDen)) := by
    rw [ownDen_eq_false, not_or]
  have hbl : blocked b o (b.occ o) d = false ↔
      ¬ ((b.occ o = Piece.ATiger ∨ b.occ o = Piece.ALion ∨ b.occ o = Piece.BTiger ∨
          b.occ o = Piece.BLion) ∧
        ∃ path, jumpPath.lookup (o, d) = some path ∧
          ∃ q ∈ path, b.Get q ≠ some Piece.Empty) := by
    rw [← isJumpCase_iff]
    constructor
    · rintro hb ⟨hj, path, hkey, hocc⟩
      rw [blocked_of_occupied b o d _ path hkey hj hocc] at hb
      exact Bool.noConfusion hb
    · intro h
      by_contra hb
      have hb2 : blocked b o (b.occ o) d = true := by simpa using hb
      apply h
      unfold blocked at hb2
      simp only [Bool.and_eq_true] at hb2
      obtain ⟨hj, hp⟩ := hb2
      refine ⟨hj, ?_⟩
      cases hl : jumpPath.lookup (o, d) with
      | none => rw [hl] at hp; exact Bool.noConfusion hp
      | some path =>
        rw [hl] at hp
        simp only [occupiedOn, List.any_eq_true, decide_eq_true_eq] at hp
        obtain ⟨q, hq, hne⟩ := hp
        have hr : InRange q := jumpPath_inRange _ (lookup_mem _ path jumpPath hl) q hq
        refine ⟨path, rfl, q, hq, ?_⟩
        rw [Get_of_inRange b q hr]
        simpa using hne
  rw [hden, hbl]
  rfl

/-- C15, at a concrete input: on the starting layout the side-A mouse on `(0,2)` passes the five
tests for the destination `(0,3)`, and the same list holds the side-B elephant's move from
`(0,6)` to `(0,5)`. -/
theorem moveList_characterisation_witness :
    InRange (0, 2) ∧ InRange (0, 3) ∧ NewBoard.Get (0, 2) = some Piece.AMouse ∧
      NewBoard.Get (0, 6) = some Piece.BElephant ∧
      ∃ moves, NewBoard.MoveList stdRules = some moves ∧ ((0, 2), (0, 3)) ∈ moves ∧
        ((0, 6), (0, 5)) ∈ moves := by
  refine ⟨by decide, by decide, by decide, by decide, ?_⟩
  obtain ⟨moves, p, t, hm, hp, ht, h⟩ :=
    moveList_characterisation stdRules NewBoard (0, 2) (0, 3) (by decide) (by decide)
  obtain rfl : Piece.AMouse = p := Option.some.inj hp
  obtain rfl : Piece.Empty = t := Option.some.inj ht
  refine ⟨moves, hm, h.2 ⟨by decide, by decide, by decide, fun hj => absurd hj.1 (by decide),
    by decide⟩, ?_⟩
  have hm2 := hm
  rw [MoveList_eq] at hm2
  simp only [Option.some.injEq] at hm2
  subst hm2
  rw [mem_moveSet_of_Get stdRules NewBoard (0, 6) (0, 5) Piece.BElephant (by decide)]
  decide

/-! ## Rotation and the starting layout -/

theorem mem_allSquares (p : Point) : p ∈ allSquares ↔ InRange p := by
  unfold allSquares
  rw [inRange_iff_scanned]
  simp only [List.mem_flatMap, List.mem_map, List.mem_range]
  constructor
  · rintro ⟨x, hx, y, hy, h⟩
    exact ⟨x, hx, y, hy, h.symm⟩
  · rintro ⟨x, hx, y, hy, h⟩
    exact ⟨x, hx, y, hy, h.symm⟩

theorem Rotate_of_inRange (p : Point) (hp : InRange p) : p.Rotate = (6 - p.1, 8 - p.2) := by
  unfold InRange at hp
  unfold Point.Rotate wrapInt64
  apply Prod.ext <;> simp only <;> omega

/-- C13: `Rotate` is the 180-degree mirror of the board. For every in-range point `p`,
`Rotate(p)` is in range and `Rotate(Rotate(p)) = p`, and `Rotate(p) = p` exactly when
`p = (3,4)`; `Rotate(ADen) = BDen`; and `Rotate` maps the three traps of side A onto the three
traps of side B. -/
theorem rotate_mirror :
    (∀ p : Point, InRange p →
      InRange p.Rotate ∧ p.Rotate.Rotate = p ∧ (p.Rotate = p ↔ p = (3, 4))) ∧
    ADen.Rotate = BDen ∧
    (∀ q, q ∈ [ATrap1, ATrap2, ATrap3].map Point.Rotate ↔ q ∈ [BTrap1, BTrap2, BTrap3]) := by
  refine ⟨?_, by decide, ?_⟩
  · intro p hp
    have h1 := Rotate_of_inRange p hp
    have hr : InRange p.Rotate := by
      rw [h1]
      unfold InRange at hp ⊢
      simp only
      omega
    have h2 := Rotate_of_inRange p.Rotate hr
    refine ⟨hr, ?_, ?_⟩
    · rw [h2, h1]
      apply Prod.ext <;> simp only <;> omega
    · rw [h1]
      obtain ⟨x, y⟩ := p
      simp only [Prod.mk.injEq]
      constructor <;> rintro ⟨hx, hy⟩ <;> constructor <;> omega
  · have h : [ATrap1, ATrap2, ATrap3].map Point.Rotate = [BTrap3, BTrap2, BTrap1] := by decide
    intro q
    rw [h]
    simp only [List.mem_cons, List.mem_singleton, List.not_mem_nil, or_false]
    tauto

/-- C14: Canonical starting layout. On `NewBoard` each of the sixteen named pieces stands on
exactly one of the 63 squares and 47 squares are `Empty`; every side-A piece is on ranks 0 to 2
and every side-B piece on ranks 6 to 8; the two dens and the six traps are `Empty`; and for every
square `p` the occupant of `Rotate(p)` is the piece of the same species on the other side
(`Empty` for `Empty`). -/
theorem newBoard_layout :
    (∀ piece ∈ namedPieces, squaresHolding NewBoard piece = 1) ∧
    namedPieces.Nodup ∧ namedPieces.length = 16 ∧ Piece.Empty ∉ namedPieces ∧
    squaresHolding NewBoard Piece.Empty = 47 ∧ allSquares.length = 63 ∧
    (∀ p : Point, InRange p → ∃ piece, NewBoard.Get p = some piece ∧
      (piece.Side = Side.A → 0 ≤ p.2 ∧ p.2 ≤ 2) ∧ (piece.Side = Side.B → 6 ≤ p.2 ∧ p.2 ≤ 8) ∧
      NewBoard.Get p.Rotate = some piece.mirror) ∧
    (∀ p ∈ [ADen, BDen, ATrap1, ATrap2, ATrap3, BTrap1, BTrap2, BTrap3],
      NewBoard.Get p = some Piece.Empty) := by
  refine ⟨by decide, by decide, by decide, by decide, by decide, by decide, ?_, by decide⟩
  have h : ∀ p ∈ allSquares, NewBoard.Get p = some (NewBoard.occ p) ∧
      ((NewBoard.occ p).Side = Side.A → 0 ≤ p.2 ∧ p.2 ≤ 2) ∧
      ((NewBoard.occ p).Side = Side.B → 6 ≤ p.2 ∧ p.2 ≤ 8) ∧
      NewBoard.Get p.Rotate = some (NewBoard.occ p).mirror := by decide
  intro p hp
  exact ⟨_, h p ((mem_allSquares p).2 hp)⟩

/-! ## The topology tables -/

theorem mem_neighbours (p q : Point) : q ∈ neighbours p ↔ InRange q ∧ Adjacent p q := by
  obtain ⟨px, py⟩ := p
  obtain ⟨qx, qy⟩ := q
  simp only [neighbours, List.mem_filter, List.mem_cons, Prod.mk.injEq, decide_eq_true_eq,
    Adjacent, List.mem_singleton, List.not_mem_nil, or_false]
  tauto

theorem swimmingAdjacency_grid :
    ∀ p ∈ allSquares,
      swimmingAdjacency.lookup p = some (lookupAdj swimmingAdjacency p) ∧
        (lookupAdj swimmingAdjacency p).Nodup ∧
        (∀ q ∈ lookupAdj swimmingAdjacency p, q ∈ neighbours p) ∧
        (∀ q ∈ neighbours p, q ∈ lookupAdj swimmingAdjacency p) := by
  decide

/-- C16: Swim topology is the full grid. For every one of the 63 squares `p`,
`swimmingAdjacency` has an entry, no point is listed twice in it, and a point is listed exactly
when it is an orthogonal neighbour of `p` inside the 7x9 grid. -/
theorem swim_topology (p : Point) (hp : InRange p) :
    ∃ l, swimmingAdjacency.lookup p = some l ∧ l.Nodup ∧
      ∀ q, q ∈ l ↔ InRange q ∧ Adjacent p q := by
  obtain ⟨h1, h2, h3, h4⟩ := swimmingAdjacency_grid p ((mem_allSquares p).2 hp)
  refine ⟨_, h1, h2, fun q => ?_⟩
  rw [← mem_neighbours]
  exact ⟨h3 q, h4 q⟩

/-- C16, at a concrete input: the corner `(0,0)` has the two neighbours `(1,0)` and `(0,1)`, and
the river square `(1,3)` has all four. -/
theorem swim_topology_witness :
    swimmingAdjacency.lookup (0, 0) = some [(1, 0), (0, 1)] ∧
      swimmingAdjacency.lookup (1, 3) = some [(1, 2), (0, 3), (2, 3), (1, 4)] ∧
      InRange (1, 3) ∧
      ∃ l, swimmingAdjacency.lookup (1, 3) = some l ∧ l.Nodup ∧
        ∀ q, q ∈ l ↔ InRange q ∧ Adjacent (1, 3) q :=
  ⟨by decide, by decide, by decide, swim_topology (1, 3) (by decide)⟩

theorem normalAdjacency_grid :
    ∀ p ∈ allSquares,
      normalAdjacency.lookup p = some (lookupAdj normalAdjacency p) ∧
        (isRiver p = true → lookupAdj normalAdjacency p = []) ∧
        (isRiver p = false →
          (lookupAdj normalAdjacency p).Nodup ∧
          (∀ q ∈ lookupAdj normalAdjacency p, q ∈ neighbours p ∧ isRiver q = false) ∧
          (∀ q ∈ neighbours p, isRiver q = false → q ∈ lookupAdj normalAdjacency p)) ∧
        (∀ q ∈ lookupAdj normalAdjacency p, p ∈ lookupAdj normalAdjacency q) := by
  decide

theorem normalAdjacency_keys_inRange : ∀ e ∈ normalAdjacency, InRange e.1 := by decide

theorem lookupAdj_mem_key (adjacency : List (Point × List Point)) (p q : Point)
    (h : q ∈ lookupAdj adjacency p) : ∃ l, (p, l) ∈ adjacency ∧ q ∈ l := by
  unfold lookupAdj at h
  cases hl : adjacency.lookup p with
  | none => simp [hl] at h
  | some l =>
    simp only [hl, Option.getD_some] at h
    exact ⟨l, lookup_mem p l adjacency hl, h⟩

theorem normalAdjacency_symm_aux (p q : Point) (h : q ∈ lookupAdj normalAdjacency p) :
    p ∈ lookupAdj normalAdjacency q := by
  obtain ⟨l, hl, -⟩ := lookupAdj_mem_key normalAdjacency p q h
  have hp : InRange p := normalAdjacency_keys_inRange _ hl
  exact (normalAdjacency_grid p ((mem_allSquares p).2 hp)).2.2.2 q h

/-- C17: Ordinary topology is the grid minus the river. Twelve of the 63 squares are river
squares. For every square `p`, `normalAdjacency` has an entry; for a river square it is empty;
for any other square no point is listed twice and a point is listed exactly when it is an
in-grid orthogonal neighbour of `p` that is not a river square. The relation is symmetric. -/
theorem normal_topology :
    (allSquares.filter (fun p => isRiver p)).length = 12 ∧
    (allSquares.filter (fun p => !isRiver p)).length = 51 ∧
    (∀ p : Point, InRange p →
      ∃ l, normalAdjacency.lookup p = some l ∧
        (isRiver p = true → l = []) ∧
        (isRiver p = false → l.Nodup ∧
          ∀ q, q ∈ l ↔ InRange q ∧ Adjacent p q ∧ isRiver q = false)) ∧
    (∀ p q : Point, q ∈ lookupAdj normalAdjacency p ↔ p ∈ lookupAdj normalAdjacency q) := by
  refine ⟨by decide, by decide, ?_, ?_⟩
  · intro p hp
    obtain ⟨h1, h2, h3, -⟩ := normalAdjacency_grid p ((mem_allSquares p).2 hp)
    refine ⟨_, h1, h2, fun hr => ?_⟩
    obtain ⟨hn, ha, hb⟩ := h3 hr
    refine ⟨hn, fun q => ?_⟩
    constructor
    · intro hq
      obtain ⟨h4, h5⟩ := ha q hq
      exact ⟨((mem_neighbours p q).1 h4).1, ((mem_neighbours p q).1 h4).2, h5⟩
    · rintro ⟨h4, h5, h6⟩
      exact hb q ((mem_neighbours p q).2 ⟨h4, h5⟩) h6
  · intro p q
    exact ⟨normalAdjacency_symm_aux p q, normalAdjacency_symm_aux q p⟩

/-- C17, at concrete inputs: the bank square `(1,2)` lists its three land neighbours and not the
river square `(1,3)`, which has the empty list; `(1,1)` and `(1,2)` list each other. -/
theorem normal_topology_witness :
    normalAdjacency.lookup (1, 2) = some [(1, 1), (0, 2), (2, 2)] ∧
      normalAdjacency.lookup (1, 3) = some [] ∧ isRiver (1, 3) = true ∧
      (((1, 1) : Point) ∈ lookupAdj normalAdjacency (1, 2) ↔
        ((1, 2) : Point) ∈ lookupAdj normalAdjacency (1, 1)) :=
  ⟨by decide, by decide, by decide, normal_topology.2.2.2 (1, 2) (1, 1)⟩

theorem jumpingAdjacency_grid :
    ∀ p ∈ allSquares,
      jumpingAdjacency.lookup p = some (lookupAdj jumpingAdjacency p) ∧
        (∀ q ∈ lookupAdj jumpingAdjacency p,
          q ∈ lookupAdj normalAdjacency p ∨ (p, q) ∈ jumpKeys) ∧
        (∀ q ∈ lookupAdj normalAdjacency p, q ∈ lookupAdj jumpingAdjacency p) := by
  decide

theorem jumpPath_shape :
    ∀ e ∈ jumpPath,
      InRange e.1.1 ∧ InRange e.1.2 ∧ isRiver e.1.1 = false ∧ isRiver e.1.2 = false ∧
        (e.1.1.1 = e.1.2.1 ∨ e.1.1.2 = e.1.2.2) ∧ e.2 = between e.1.1 e.1.2 ∧
        (e.1.1.1 = e.1.2.1 → e.2.length = 3) ∧ (e.1.1.2 = e.1.2.2 → e.2.length = 2) ∧
        (∀ q ∈ e.2, isRiver q = true) ∧ jumpPath.lookup (e.1.2, e.1.1) = some e.2 ∧
        jumpPath.lookup e.1 = some e.2 ∧ e.1.2 ∈ lookupAdj jumpingAdjacency e.1.1 := by
  decide

theorem mem_jumpKeys (k : PointPair) :
    k ∈ jumpKeys ↔ ∃ path, jumpPath.lookup k = some path := by
  unfold jumpKeys
  rw [List.mem_map]
  constructor
  · rintro ⟨e, he, rfl⟩
    exact ⟨e.2, (jumpPath_shape e he).2.2.2.2.2.2.2.2.2.2.1⟩
  · rintro ⟨path, h⟩
    exact ⟨(k, path), lookup_mem k path jumpPath h, rfl⟩

theorem mem_between (o d q : Point) :
    q ∈ between o d ↔
      (o.1 = d.1 ∧ q.1 = o.1 ∧ min o.2 d.2 < q.2 ∧ q.2 < max o.2 d.2) ∨
      (o.1 ≠ d.1 ∧ o.2 = d.2 ∧ q.2 = o.2 ∧ min o.1 d.1 < q.1 ∧ q.1 < max o.1 d.1) := by
  obtain ⟨ox, oy⟩ := o
  obtain ⟨dx, dy⟩ := d
  obtain ⟨qx, qy⟩ := q
  unfold between
  simp only
  by_cases h1 : ox = dx
  · simp only [h1, if_true, List.mem_map, List.mem_range, Prod.mk.injEq, ne_eq,
      not_true_eq_false, false_and, or_false, true_and]
    constructor
    · rintro ⟨k, hk, rfl, rfl⟩
      refine ⟨rfl, ?_, ?_⟩ <;> omega
    · rintro ⟨rfl, h2, h3⟩
      refine ⟨(qy - min oy dy - 1).toNat, ?_, rfl, ?_⟩ <;> omega
  · by_cases h2 : oy = dy
    · simp only [h1, h2, if_false, if_true, List.mem_map, List.mem_range, Prod.mk.injEq,
        ne_eq, not_false_eq_true, false_and, false_or, true_and]
      constructor
      · rintro ⟨k, hk, rfl, rfl⟩
        refine ⟨rfl, ?_, ?_⟩ <;> omega
      · rintro ⟨rfl, h3, h4⟩
        refine ⟨(qx - min ox dx - 1).toNat, ?_, ?_, rfl⟩ <;> omega
    · simp [h1, h2]

/-- C18: Jump topology and blocking paths agree. For every square `p`, `jumpingAdjacency` has an
entry and a point `d` is listed in it exactly when `d` is listed in `normalAdjacency` for `p` or
`(p,d)` is a key of `jumpPath`. `jumpPath` has 20 keys. For each key `(o,d)` with path `path`:
`o` and `d` are non-river squares on a common file or rank; `path` is the list of the squares
strictly between them on that line, three for a vertical jump and two for a horizontal one, all
river squares; and `(d,o)` is a key with the same path. -/
theorem jump_topology :
    (∀ p : Point, InRange p →
      ∃ l, jumpingAdjacency.lookup p = some l ∧
        ∀ d, d ∈ l ↔ d ∈ lookupAdj normalAdjacency p ∨ ∃ path, jumpPath.lookup (p, d) = some path) ∧
    jumpKeys.length = 20 ∧ jumpKeys.Nodup ∧
    (∀ (o d : Point) (path : List Point), jumpPath.lookup (o, d) = some path →
      InRange o ∧ InRange d ∧ isRiver o = false ∧ isRiver d = false ∧
        (o.1 = d.1 ∨ o.2 = d.2) ∧ path = between o d ∧
        (∀ q, q ∈ path ↔
          (o.1 = d.1 ∧ q.1 = o.1 ∧ min o.2 d.2 < q.2 ∧ q.2 < max o.2 d.2) ∨
          (o.1 ≠ d.1 ∧ o.2 = d.2 ∧ q.2 = o.2 ∧ min o.1 d.1 < q.1 ∧ q.1 < max o.1 d.1)) ∧
        (o.1 = d.1 → path.length = 3) ∧ (o.2 = d.2 → path.length = 2) ∧
        (∀ q ∈ path, isRiver q = true) ∧ jumpPath.lookup (d, o) = some path) := by
  refine ⟨?_, by decide, by decide, ?_⟩
  · intro p hp
    obtain ⟨h1, h2, h3⟩ := jumpingAdjacency_grid p ((mem_allSquares p).2 hp)
    refine ⟨_, h1, fun d => ?_⟩
    constructor
    · intro hd
      rcases h2 d hd with h | h
      · exact Or.inl h
      · exact Or.inr ((mem_jumpKeys (p, d)).1 h)
    · rintro (h | ⟨path, h⟩)
      · exact h3 d h
      · exact (jumpPath_shape _ (lookup_mem _ path jumpPath h)).2.2.2.2.2.2.2.2.2.2.2
  · intro o d path h
    obtain ⟨a1, a2, a3, a4, a5, a6, a7, a8, a9, a10, -, -⟩ :=
      jumpPath_shape _ (lookup_mem _ path jumpPath h)
    refine ⟨a1, a2, a3, a4, a5, a6, fun q => ?_, a7, a8, a9, a10⟩
    have a6b : path = between o d := a6
    rw [a6b]
    exact mem_between o d q

/-- C18, at concrete inputs: the bank square `(1,2)` lists its three land neighbours and the far
bank `(1,6)`; the jump from `(1,2)` to `(1,6)` and the jump back have the path
`(1,3), (1,4), (1,5)`. -/
theorem jump_topology_witness :
    jumpingAdjacency.lookup (1, 2) = some [(1, 1), (0, 2), (2, 2), (1, 6)] ∧
      normalAdjacency.lookup (1, 2) = some [(1, 1), (0, 2), (2, 2)] ∧
      jumpPath.lookup ((1, 2), (1, 6)) = some [(1, 3), (1, 4), (1, 5)] ∧
      between (1, 2) (1, 6) = [(1, 3), (1, 4), (1, 5)] ∧
      jumpPath.lookup ((1, 6), (1, 2)) = some [(1, 3), (1, 4), (1, 5)] :=
  ⟨by decide, by decide, by decide, by decide,
    (jump_topology.2.2.2 (1, 2) (1, 6) [(1, 3), (1, 4), (1, 5)] (by decide)).2.2.2.2.2.2.2.2.2.2⟩

/-! ## Staying inside the board -/

theorem tables_have_entries :
    ∀ p ∈ allSquares,
      (normalAdjacency.lookup p).isSome = true ∧ (jumpingAdjacency.lookup p).isSome = true ∧
        (swimmingAdjacency.lookup p).isSome = true := by
  decide

theorem tables_irreflexive :
    (∀ e ∈ normalAdjacency, e.1 ∉ e.2) ∧ (∀ e ∈ jumpingAdjacency, e.1 ∉ e.2) ∧
      (∀ e ∈ swimmingAdjacency, e.1 ∉ e.2) := by
  decide

theorem selectAdjacency_irreflexive (R : Rules) (p : Piece) (o d : Point)
    (h : d ∈ lookupAdj (selectAdjacency R p) o) : o ≠ d := by
  have key : ∀ adjacency : List (Point × List Point), (∀ e ∈ adjacency, e.1 ∉ e.2) →
      d ∈ lookupAdj adjacency o → o ≠ d := by
    intro adjacency hirr hd
    obtain ⟨l, hl, hdl⟩ := lookupAdj_mem_key adjacency o d hd
    rintro rfl
    exact hirr _ hl hdl
  unfold selectAdjacency at h
  split at h
  · exact key _ tables_irreflexive.2.1 h
  · split at h
    · exact key _ tables_irreflexive.2.2 h
    · exact key _ tables_irreflexive.1 h

/-- C19: `MoveList` and `Winner` stay inside the board. Each of the three adjacency tables has an
entry for every one of the 63 squares; every destination they list and every square of a
`jumpPath` entry is in range; both dens are in range. For every board and every choice of the
piece methods, `MoveList` and `Winner` return a value, that is, no `Get` they perform indexes
outside the `[9][7]` array; and every generated move has an in-range origin and an in-range
destination different from the origin. -/
theorem stays_inside (R : Rules) (b : Board) :
    (∀ p : Point, InRange p →
      (normalAdjacency.lookup p).isSome = true ∧ (jumpingAdjacency.lookup p).isSome = true ∧
        (swimmingAdjacency.lookup p).isSome = true) ∧
    (∀ frm d : Point,
      d ∈ lookupAdj normalAdjacency frm ∨ d ∈ lookupAdj jumpingAdjacency frm ∨
        d ∈ lookupAdj swimmingAdjacency frm → InRange d) ∧
    (∀ (k : PointPair) (path : List Point), jumpPath.lookup k = some path →
      ∀ q ∈ path, InRange q) ∧
    InRange ADen ∧ InRange BDen ∧
    ∃ moves winner, b.MoveList R = some moves ∧ b.Winner R = some winner ∧
      ∀ o d, (o, d) ∈ moves → InRange o ∧ InRange d ∧ o ≠ d := by
  refine ⟨fun p hp => tables_have_entries p ((mem_allSquares p).2 hp), ?_, ?_, ADen_inRange,
    BDen_inRange, moveSet R b, _, MoveList_eq R b, Winner_eq R b, ?_⟩
  · rintro frm d (h | h | h)
    · exact lookupAdj_inRange _ normalAdjacency_inRange frm d h
    · exact lookupAdj_inRange _ jumpingAdjacency_inRange frm d h
    · exact lookupAdj_inRange _ swimmingAdjacency_inRange frm d h
  · intro k path h
    exact jumpPath_inRange _ (lookup_mem k path jumpPath h)
  · intro o d hmem
    refine ⟨moveSet_origin_inRange R b _ hmem, moveSet_dest_inRange R b _ hmem, ?_⟩
    exact selectAdjacency_irreflexive R _ o d ((mem_moveSet R b o d).1 hmem).2.2.1

/-- C19, at a concrete input: on the starting layout `MoveList` returns its 48 moves and
`Winner` returns `None`. -/
theorem stays_inside_witness :
    (NewBoard.MoveList stdRules).map List.length = some 48 ∧
      NewBoard.Winner stdRules = some Side.None ∧
      ∃ moves winner, NewBoard.MoveList stdRules = some moves ∧
        NewBoard.Winner stdRules = some winner ∧
        ∀ o d, (o, d) ∈ moves → InRange o ∧ InRange d ∧ o ≠ d :=
  ⟨by decide, by decide, (stays_inside stdRules NewBoard).2.2.2.2.2⟩

/-! ## Output order -/

theorem movesAt_origin (R : Rules) (b : Board) (frm : Point) :
    ∀ m ∈ movesAt R b frm, m.1 = frm := by
  rintro ⟨o, d⟩ hm
  exact ((mem_movesAt R b frm o d).1 hm).1

theorem moveSet_eq_flatMap (R : Rules) (b : Board) :
    moveSet R b = allSquares.flatMap (movesAt R b) := by
  unfold moveSet allSquares
  rw [List.flatMap_assoc]
  simp only [List.flatMap_map]

theorem moveSet_pairwise (R : Rules) (b : Board) :
    (moveSet R b).Pairwise (fun m1 m2 => scanLE m1.1 m2.1) := by
  unfold moveSet
  rw [List.pairwise_flatMap]
  constructor
  · intro x _
    rw [List.pairwise_flatMap]
    constructor
    · intro y _
      apply List.pairwise_of_forall_mem_list
      intro m1 h1 m2 h2
      rw [movesAt_origin R b _ m1 h1, movesAt_origin R b _ m2 h2]
      exact Or.inr ⟨rfl, Int.le_refl _⟩
    · refine (List.pairwise_lt_range 9).imp ?_
      intro y1 y2 hlt m1 h1 m2 h2
      rw [movesAt_origin R b _ m1 h1, movesAt_origin R b _ m2 h2]
      exact Or.inr ⟨rfl, by simp only; omega⟩
  · refine (List.pairwise_lt_range 7).imp ?_
    intro x1 x2 hlt m1 h1 m2 h2
    obtain ⟨y1, -, hm1⟩ := List.mem_flatMap.1 h1
    obtain ⟨y2, -, hm2⟩ := List.mem_flatMap.1 h2
    rw [movesAt_origin R b _ m1 hm1, movesAt_origin R b _ m2 hm2]
    exact Or.inl (by simp only; omega)

theorem flatMap_ite_sublist {α β : Type} [DecidableEq α] (a0 : α) (g : List β) :
    ∀ l : List α, l.Nodup → (l.flatMap (fun a => if a = a0 then g else [])).Sublist g
  | [], _ => by simp
  | a :: l, h => by
    rw [List.nodup_cons] at h
    rw [List.flatMap_cons]
    by_cases ha : a = a0
    · have hnil : l.flatMap (fun a => if a = a0 then g else []) = [] := by
        rw [List.flatMap_eq_nil_iff]
        intro x hx
        have : x ≠ a0 := fun hxa => h.1 (ha ▸ hxa ▸ hx)
        simp [this]
      simp [ha, hnil]
    · simp only [ha, if_false, List.nil_append]
      exact flatMap_ite_sublist a0 g l h.2

theorem allSquares_nodup : allSquares.Nodup := by decide

theorem movesAt_filter_origin (R : Rules) (b : Board) (o s : Point) :
    (movesAt R b s).filter (fun m => decide (m.1 = o)) = if s = o then movesAt R b o else [] := by
  by_cases hs : s = o
  · subst hs
    rw [if_pos rfl, List.filter_eq_self]
    intro m hm
    simpa using movesAt_origin R b s m hm
  · rw [if_neg hs, List.filter_eq_nil_iff]
    intro m hm
    rw [decide_eq_true_eq, movesAt_origin R b s m hm]
    exact hs

theorem movesAt_dests_sublist (R : Rules) (b : Board) (o : Point) :
    ((movesAt R b o).map Prod.snd).Sublist (lookupAdj (selectAdjacency R (b.occ o)) o) := by
  unfold movesAt
  split
  · simp
  · rw [List.map_map]
    have : (Prod.snd ∘ fun dest : Point => (o, dest)) = id := rfl
    rw [this, List.map_id]
    exact List.filter_sublist _

/-- C12: Deterministic output order of `MoveList`. The origins of the moves of the list appear in
non-decreasing lexicographic order of (file, rank); the destinations of the moves that share an
origin `o`, in the order of the list, form a sublist of the adjacency list selected for the piece
on `o`; and a board with the same contents on all 63 squares gives the same list. -/
theorem moveList_order (R : Rules) (b : Board) :
    ∃ moves, b.MoveList R = some moves ∧
      moves.Pairwise (fun m1 m2 => scanLE m1.1 m2.1) ∧
      (∀ (o : Point) (p : Piece), b.Get o = some p →
        ((moves.filter (fun m => decide (m.1 = o))).map Prod.snd).Sublist
          (lookupAdj (selectAdjacency R p) o)) ∧
      (∀ b2 : Board, (∀ (r : Fin 9) (c : Fin 7), b2 r c = b r c) →
        b2.MoveList R = some moves) := by
  refine ⟨moveSet R b, MoveList_eq R b, moveSet_pairwise R b, ?_, ?_⟩
  · intro o p hp
    obtain ⟨-, hocc⟩ := Get_eq_some b o p hp
    rw [moveSet_eq_flatMap, List.filter_flatMap]
    simp only [movesAt_filter_origin]
    rw [← hocc]
    exact ((flatMap_ite_sublist o (movesAt R b o) allSquares allSquares_nodup).map
      Prod.snd).trans (movesAt_dests_sublist R b o)
  · intro b2 h
    have : b2 = b := funext (fun r => funext (fun c => h r c))
    rw [this]
    exact MoveList_eq R b

/-- C12, at a concrete input: on `denGuards` the moves of the dog on `(2,0)` come before those
of the dog on `(2,8)`, each group in the order of `normalAdjacency` with the own den left out. -/
theorem moveList_order_witness :
    denGuards.MoveList stdRules =
        some [((2, 0), (1, 0)), ((2, 0), (2, 1)), ((2, 8), (2, 7)), ((2, 8), (1, 8))] ∧
      lookupAdj (selectAdjacency stdRules Piece.ADog) (2, 0) = [(1, 0), (3, 0), (2, 1)] ∧
      lookupAdj (selectAdjacency stdRules Piece.BDog) (2, 8) = [(2, 7), (1, 8), (3, 8)] ∧
      ∃ moves, denGuards.MoveList stdRules = some moves ∧
        moves.Pairwise (fun m1 m2 => scanLE m1.1 m2.1) ∧
        (∀ (o : Point) (p : Piece), denGuards.Get o = some p →
          ((moves.filter (fun m => decide (m.1 = o))).map Prod.snd).Sublist
            (lookupAdj (selectAdjacency stdRules p) o)) ∧
        (∀ b2 : Board, (∀ (r : Fin 9) (c : Fin 7), b2 r c = denGuards r c) →
          b2.MoveList stdRules = some moves) :=
  ⟨by decide, by decide, by decide, moveList_order stdRules denGuards⟩

/-! ## Frame and conservation of `Move` -/

theorem put_spec (b : Board) (p : Point) (piece : Piece) (hp : InRange p) :
    ∃ b1, b.put p piece = some (b.occ p, b1) ∧
      ∀ q, b1.Get q = if q = p then some piece else b.Get q := by
  have hocc : b.Get p = some (b.occ p) := Get_of_inRange b p hp
  simp only [Board.put, hp, dite_true]
  simp only [Board.Get, hp, dite_true, Option.some.injEq] at hocc
  refine ⟨_, by rw [hocc], ?_⟩
  intro q
  by_cases hq : InRange q
  · simp only [Board.Get, hq, dite_true, Board.set, Fin.mk.injEq]
    by_cases hqp : q = p
    · subst hqp
      simp
    · have hidx : ¬ (q.2.toNat = p.2.toNat ∧ q.1.toNat = p.1.toNat) := by
        intro h
        apply hqp
        unfold InRange at hp hq
        apply Prod.ext <;> omega
      simp [hidx, hqp]
  · have hqp : q ≠ p := fun h => hq (h ▸ hp)
    simp [Board.Get, hq, hqp]

theorem occ_of_Get_update (b b1 : Board) (p : Point) (piece : Piece)
    (h : ∀ q, b1.Get q = if q = p then some piece else b.Get q) (q : Point) :
    b1.occ q = if q = p then piece else b.occ q := by
  unfold Board.occ
  rw [h q]
  split <;> rfl

theorem countP_update {α : Type} [DecidableEq α] (P Q : α → Bool) (a : α) :
    ∀ l : List α, l.Nodup → a ∈ l → (∀ x ∈ l, x ≠ a → P x = Q x) →
      l.countP P + (if Q a then 1 else 0) = l.countP Q + (if P a then 1 else 0)
  | [], _, ha, _ => by simp at ha
  | x :: l, hl, ha, h => by
    rw [List.nodup_cons] at hl
    simp only [List.countP_cons]
    by_cases hx : x = a
    · subst hx
      have hsame : l.countP P = l.countP Q := by
        apply List.countP_congr
        intro y hy
        have hne : y ≠ x := fun hyx => hl.1 (hyx ▸ hy)
        rw [h y (List.mem_cons_of_mem _ hy) hne]
      rw [hsame]
      omega
    · have hal : a ∈ l := by
        rcases List.mem_cons.1 ha with h1 | h1
        · exact absurd h1.symm hx
        · exact h1
      have ih := countP_update P Q a l hl.2 hal
        (fun y hy hne => h y (List.mem_cons_of_mem _ hy) hne)
      rw [h x (List.mem_cons_self _ _) hx]
      omega

theorem pieceCount_put (b b1 : Board) (p : Point) (piece : Piece) (hp : InRange p)
    (h : ∀ q, b1.Get q = if q = p then some piece else b.Get q) :
    pieceCount b1 + (if b.occ p ≠ Piece.Empty then 1 else 0) =
      pieceCount b + (if piece ≠ Piece.Empty then 1 else 0) := by
  have hocc := occ_of_Get_update b b1 p piece h
  have key := countP_update (fun q => decide (b1.occ q ≠ Piece.Empty))
    (fun q => decide (b.occ q ≠ Piece.Empty)) p allSquares allSquares_nodup
    ((mem_allSquares p).2 hp)
    (fun x _ hx => by simp only [hocc x, if_neg hx])
  simp only [hocc p, if_true, decide_eq_true_eq] at key
  unfold pieceCount
  exact key

theorem Move_frame_count (b : Board) (o d : Point) (ho : InRange o) (hd : InRange d) :
    ∃ x b1, b.Move (o, d) = some (x, b1) ∧
      (∀ q, q ≠ o → q ≠ d → b1.Get q = b.Get q) ∧
      (o ≠ d → b.Get d = some x) ∧
      (x ≠ Piece.Empty → pieceCount b1 + 1 = pieceCount b) ∧
      (x = Piece.Empty → pieceCount b1 = pieceCount b) := by
  obtain ⟨b0, hput0, hget0⟩ := put_spec b o Piece.Empty ho
  obtain ⟨b1, hput1, hget1⟩ := put_spec b0 d (b.occ o) hd
  have hc0 := pieceCount_put b b0 o Piece.Empty ho hget0
  have hc1 := pieceCount_put b0 b1 d (b.occ o) hd hget1
  refine ⟨b0.occ d, b1, ?_, ?_, ?_, ?_, ?_⟩
  · simp only [Board.Move, Board.swap, hput0, hput1]
  · intro q hqo hqd
    rw [hget1 q, if_neg hqd, hget0 q, if_neg hqo]
  · intro hne
    rw [occ_of_Get_update b b0 o Piece.Empty hget0 d, if_neg (fun h => hne h.symm)]
    exact Get_of_inRange b d hd
  · intro hx
    rw [if_pos hx] at hc1
    rw [if_neg (fun h : Piece.Empty ≠ Piece.Empty => h rfl)] at hc0
    omega
  · intro hx
    rw [if_neg (fun h : b0.occ d ≠ Piece.Empty => h hx)] at hc1
    rw [if_neg (fun h : Piece.Empty ≠ Piece.Empty => h rfl)] at hc0
    omega

theorem applyMoves_count :
    ∀ (ms : List PointPair) (b : Board), (∀ m ∈ ms, InRange m.1 ∧ InRange m.2) →
      ∃ b1, applyMoves b ms = some b1 ∧ pieceCount b1 ≤ pieceCount b
  | [], b, _ => ⟨b, rfl, Nat.le_refl _⟩
  | m :: rest, b, h => by
    obtain ⟨hm1, hm2⟩ := h m (List.mem_cons_self _ _)
    obtain ⟨x, b1, hmove, -, -, hc1, hc2⟩ := Move_frame_count b m.1 m.2 hm1 hm2
    obtain ⟨b2, happ, hle⟩ := applyMoves_count rest b1
      (fun r hr => h r (List.mem_cons_of_mem _ hr))
    refine ⟨b2, ?_, ?_⟩
    · unfold applyMoves
      rw [show m = (m.1, m.2) from rfl, hmove]
      exact happ
    · by_cases hx : x = Piece.Empty
      · have := hc2 hx
        omega
      · have := hc1 hx
        omega

/-- C20: Move frame and piece conservation. For every board and in-range points `o ≠ d`, `Move`
returns the piece `x` that stood on `d`, leaves every square other than `o` and `d` unchanged,
and the number of non-empty squares afterwards is one less than before when `x` is not `Empty`
and the same when `x` is `Empty`. After any sequence of `Move` calls on in-range points the
number of non-empty squares is at most what it was. -/
theorem move_frame_conservation :
    (∀ (b : Board) (o d : Point), InRange o → InRange d → o ≠ d →
      ∃ x b1, b.Move (o, d) = some (x, b1) ∧ b.Get d = some x ∧
        (∀ q, q ≠ o → q ≠ d → b1.Get q = b.Get q) ∧
        (x ≠ Piece.Empty → pieceCount b1 + 1 = pieceCount b) ∧
        (x = Piece.Empty → pieceCount b1 = pieceCount b)) ∧
    (∀ (b : Board) (ms : List PointPair), (∀ m ∈ ms, InRange m.1 ∧ InRange m.2) →
      ∃ b1, applyMoves b ms = some b1 ∧ pieceCount b1 ≤ pieceCount b) := by
  constructor
  · intro b o d ho hd hne
    obtain ⟨x, b1, h1, h2, h3, h4, h5⟩ := Move_frame_count b o d ho hd
    exact ⟨x, b1, h1, h3 hne, h2, h4, h5⟩
  · exact fun b ms h => applyMoves_count ms b h

/-- C13, at concrete inputs: the corner `(0,0)` is mirrored to `(6,8)` and back, and the centre
`(3,4)` is fixed. -/
theorem rotate_mirror_witness :
    Point.Rotate (0, 0) = (6, 8) ∧ Point.Rotate (6, 8) = (0, 0) ∧ Point.Rotate (3, 4) = (3, 4) ∧
      InRange (Point.Rotate (0, 0)) ∧ (Point.Rotate (0, 0)).Rotate = (0, 0) :=
  ⟨by decide, by decide, by decide, (rotate_mirror.1 (0, 0) (by decide)).1,
    (rotate_mirror.1 (0, 0) (by decide)).2.1⟩

/-- C20, at a concrete input: on `lionCorner`, with two pieces, the lion's move from `(0,0)` to
`(1,0)` returns the mouse and leaves one piece. -/
theorem move_frame_conservation_witness :
    pieceCount lionCorner = 2 ∧
      ∃ x b1, lionCorner.Move ((0, 0), (1, 0)) = some (x, b1) ∧ x = Piece.AMouse ∧
        pieceCount b1 = 1 := by
  refine ⟨by decide, ?_⟩
  obtain ⟨x, b1, hmove, hget, -, hc1, -⟩ :=
    move_frame_conservation.1 lionCorner (0, 0) (1, 0) (by decide) (by decide) (by decide)
  obtain rfl : Piece.AMouse = x := Option.some.inj hget
  have h2 : pieceCount lionCorner = 2 := by decide
  have := hc1 (by decide)
  exact ⟨_, b1, hmove, rfl, by omega⟩

end Dsq
